import Mathlib

/-
  Verification of the Net_Net_Global_Scanner valuation core against its
  natural-language specification.

  Shallow embedding conventions:
  * Python numbers (int/float) are modeled as rationals (ℚ); NaN/inf are not
    modeled (the source coerces NaN to None before any arithmetic that the
    verified claims depend on).
  * A Python `datetime` is modeled as a rational day count; `.days` of a
    timedelta is the floor of the rational difference (Python timedelta
    normalization floors), and `datetime.date()` / `strftime("%Y-%m-%d")`
    collapse to the floor of the day count.
  * Heterogeneous Python values (`Any`) are modeled by the `JVal` type below.
    Strings that parse as dates are represented by the `date` constructor
    (the source treats a parseable date string and a datetime identically);
    strings that parse as floats are represented by `num`; the `str`
    constructor covers the remaining, non-numeric, non-date strings.
  * `dict.get` on a value that is not a dict is modeled as returning None;
    the source only does this on values its type annotations promise to be
    dicts.
  * Code that can raise is modeled in `Except String`; pure helpers that the
    source documents as total return `Option`.
-/

/-- Model of a heterogeneous Python value (the `Any` in `Dict[str, Any]`).
`null` is Python `None`; `date` is a `datetime` (or a string every claim-
relevant parser accepts as one), as a rational day count. -/
inductive JVal where
  | null
  | num (x : ℚ)
  | str (s : String)
  | date (d : ℚ)
  | obj (fields : List (String × JVal))
  | arr (elems : List JVal)

namespace JVal

/-- Python truthiness: None, 0, empty string/dict/list are falsy. -/
def jTruthy : JVal → Bool
  | .null => false
  | .num x => x != 0
  | .str s => s != ""
  | .date _ => true
  | .obj fs => !fs.isEmpty
  | .arr es => !es.isEmpty

/-- Python `d.get(k)`: returns None when the key is missing (and, in this
model, when the value is not a dict). A stored None and a missing key are
indistinguishable through `.get`, exactly as in Python. -/
def getD : JVal → String → JVal
  | .obj fs, k =>
    match fs.find? (fun p => p.1 == k) with
    | some p => p.2
    | none => .null
  | _, _ => .null

/-- Python `k in d`. -/
def hasKey : JVal → String → Bool
  | .obj fs, k => fs.any (fun p => p.1 == k)
  | _, _ => false

/-- Python `a or b` on values (first truthy wins, else the second). -/
def jOr (a b : JVal) : JVal := if jTruthy a then a else b

/-- Python `str(x)`, used only for diagnostic string fields; the rendering
of non-string values is an abstract but fixed choice. -/
def jToStr : JVal → String
  | .null => "None"
  | .num x => toString x
  | .str s => s
  | .date d => toString d
  | .obj _ => "dict"
  | .arr _ => "list"

end JVal

open JVal

/-- Python `s.upper()`, modeled character-wise (ASCII suffices for the
currency codes the source handles). -/
def strUpper (s : String) : String := String.mk (s.data.map Char.toUpper)

/- ----------------------------------------------------------------
   domain/services/fx_utils.py
   ---------------------------------------------------------------- -/

/-- fx_utils._ccy_alias: uppercase, then map the RMB/CNH aliases to CNY;
empty input is returned unchanged. -/
def _ccy_alias (ccy : String) : String :=
  if ccy = "" then ccy
  else
    let u := strUpper ccy
    if u = "RMB" then "CNY"
    else if u = "CNH" then "CNY"
    else u

/-- Lookup in a rate table (Python `fx_rates[k]` / `k in fx_rates`); the
table is modeled as an association list with first-match lookup. -/
def lookupRate (t : List (String × ℚ)) (k : String) : Option ℚ :=
  (t.find? (fun p => p.1 == k)).map (fun p => p.2)

/-- Python dict insertion `out[k] = v`: overwrite in place if the key is
present, else append (preserving insertion order). -/
def dictInsert (d : List (String × ℚ)) (k : String) (v : ℚ) : List (String × ℚ) :=
  if d.any (fun p => p.1 == k) then
    d.map (fun p => if p.1 == k then (k, v) else p)
  else d ++ [(k, v)]

/-- fx_utils._normalize_rates: drop None values, alias-normalize keys,
last write wins on collisions. -/
def _normalize_rates (raw : List (String × Option ℚ)) : List (String × ℚ) :=
  raw.foldl
    (fun out kv =>
      match kv.2 with
      | none => out
      | some v => dictInsert out (_ccy_alias kv.1) v)
    []

/-- fx_utils.convert_between. The lone partial operation in the source is
the Python division `1.0 / float(fx_rates[to_ccy_norm])`, which raises
ZeroDivisionError when that rate is 0; everything else returns a value.
The Except layer records exactly that exception. -/
def convert_between (amount : Option ℚ) (from_ccy to_ccy : Option String)
    (fx_rates : List (String × ℚ)) : Except String (Option ℚ) :=
  match amount with
  | none => .ok none
  | some amt =>
    match from_ccy, to_ccy with
    | some f, some t =>
      let from_ccy_norm := _ccy_alias f
      let to_ccy_norm := _ccy_alias t
      if from_ccy_norm = to_ccy_norm then .ok (some amt)
      else
        match lookupRate fx_rates from_ccy_norm with
        | none => .ok none
        | some rf =>
          let usd_val := amt * rf
          if to_ccy_norm = "USD" then .ok (some usd_val)
          else
            match lookupRate fx_rates to_ccy_norm with
            | none => .ok none
            | some rt =>
              if rt = 0 then .error "ZeroDivisionError"
              else .ok (some (usd_val * (1 / rt)))
    | _, _ => .ok none

/- ----------------------------------------------------------------
   domain/services/periods.py
   ---------------------------------------------------------------- -/

/-- periods.parse_date: a datetime (or a string one of the tried formats
accepts, both covered by the `date` constructor) parses to itself; None and
every other value fails all formats. -/
def parse_date : JVal → Option ℚ
  | .date d => some d
  | _ => none

/-- periods._extract_period_date: first date-bearing key wins (a parsed
datetime is always truthy, so `if d:` is `d is not None`). -/
def _extract_period_date (period : JVal) : Option ℚ :=
  match parse_date (period.getD "statement_date") with
  | some d => some d
  | none =>
    match parse_date (period.getD "period_end") with
    | some d => some d
    | none =>
      match parse_date (period.getD "date") with
      | some d => some d
      | none =>
        match parse_date (period.getD "as_of_date") with
        | some d => some d
        | none => parse_date (period.getD "fs_date")

/-- periods._sort_periods_desc: keep only dated snapshots, sort
newest-first by the extracted datetime (Python `sort(reverse=True)` is a
stable descending sort; for a total preorder key a stable sort is unique
as a function, so the structurally recursive `insertionSort` with a ≥
comparator computes the same list). -/
def _sort_periods_desc (periods : List JVal) : List JVal :=
  let with_dates : List (ℚ × JVal) :=
    periods.filterMap (fun p => (_extract_period_date p).map (fun d => (d, p)))
  (with_dates.insertionSort (fun a b => b.1 ≤ a.1)).map (fun t => t.2)

/-- periods._get_period_list: support `core["financials"][bucket]["periods"]`,
`core["financials"][bucket]` as a bare list, and the legacy flat
`core[bucket]`; anything that is not a list becomes `[]`. -/
def _get_period_list (core : JVal) (bucket : String) : List JVal :=
  let fin := jOr (core.getD "financials") (.obj [])
  let node := fin.getD bucket
  let periods : JVal :=
    match node with
    | .obj fs => jOr ((JVal.obj fs).getD "periods") (.arr [])
    | .arr es => .arr es
    | _ => jOr (core.getD bucket) (.arr [])
  match periods with
  | .arr es => es
  | _ => []

/-- periods.quarters_sorted. -/
def quarters_sorted (core : JVal) : List JVal :=
  _sort_periods_desc (_get_period_list core "quarterly")

/-- periods.annuals_sorted. -/
def annuals_sorted (core : JVal) : List JVal :=
  _sort_periods_desc (_get_period_list core "annual")

/-- periods.detect_period_currency: period-level currency keys first, then
the nested balance container; `if val:` is truthiness, result uppercased. -/
def detect_period_currency (period : JVal) : Option String :=
  if !period.jTruthy then none
  else
    let try1 := fun (container : JVal) (k : String) =>
      let val := container.getD k
      if val.jTruthy then some (strUpper (jToStr val)) else none
    match try1 period "currency" with
    | some s => some s
    | none =>
    match try1 period "ccy" with
    | some s => some s
    | none =>
    match try1 period "report_ccy" with
    | some s => some s
    | none =>
    match try1 period "reporting_currency" with
    | some s => some s
    | none =>
      let bal := jOr (period.getD "balance") (.obj [])
      match try1 bal "currency" with
      | some s => some s
      | none =>
      match try1 bal "ccy" with
      | some s => some s
      | none =>
      match try1 bal "report_ccy" with
      | some s => some s
      | none => try1 bal "reporting_currency"

/-- The `sig` closure of periods.all_periods_sorted:
`dt.strftime("%Y-%m-%d")` collapses a datetime to its calendar day, modeled
as the floor of the rational day count. -/
def periodSig (p : JVal) : Option ℤ :=
  (_extract_period_date p).map (fun d => ⌊d⌋)

/-- One step of the bucket-filling loop in all_periods_sorted: a period is
added only when it has a date signature (the "%Y-%m-%d" string is never
empty, so `if s` is `s is not None`) not already present; first write wins. -/
def addBucket (bs : List (ℤ × JVal)) (p : JVal) : List (ℤ × JVal) :=
  match periodSig p with
  | none => bs
  | some s => if bs.any (fun e => e.1 == s) then bs else bs ++ [(s, p)]

/-- periods.all_periods_sorted: combine quarterly then annual snapshots,
dedupe by date signature (first occurrence wins, so quarterly beats annual
on a tie), then sort newest-first again. -/
def all_periods_sorted (core : JVal) : List JVal :=
  let q := quarters_sorted core
  let a := annuals_sorted core
  let buckets := (q ++ a).foldl addBucket []
  _sort_periods_desc (buckets.map (fun e => e.2))

/- ----------------------------------------------------------------
   domain/services/balance_sheet_metrics.py
   ---------------------------------------------------------------- -/

/-- balance_sheet_metrics.safe_float. Numeric strings are represented by
the `num` constructor (see the header conventions); `str` covers the
non-numeric strings, on which `float(s)` fails, as do `str()` renderings of
None-like, date, dict and list values. -/
def safe_float : JVal → Option ℚ
  | .num x => some x
  | _ => none

/-- balance_sheet_metrics._extract_val: unwrap a `val`-keyed cell, then
coerce. -/
def _extract_val (raw : JVal) : Option ℚ :=
  if raw.hasKey "val" then safe_float (raw.getD "val") else safe_float raw

/-- balance_sheet_metrics.get_balance_value: the first balance-like
container that is a dict and holds the key wins (even when the held value
fails to coerce); otherwise fall back to the flat key on the period. -/
def get_balance_value (period : JVal) (key : String) : Option ℚ :=
  if !period.jTruthy then none
  else
    let isDictWith := fun (v : JVal) =>
      match v with
      | .obj _ => v.hasKey key
      | _ => false
    if isDictWith (period.getD "balance") then
      _extract_val ((period.getD "balance").getD key)
    else if isDictWith (period.getD "balance_sheet") then
      _extract_val ((period.getD "balance_sheet").getD key)
    else if isDictWith (period.getD "bs") then
      _extract_val ((period.getD "bs").getD key)
    else if period.hasKey key then _extract_val (period.getD key)
    else none

/-- balance_sheet_metrics.listing_ccy_for_ticker: meta currency first,
then sniff the most recent period. -/
def listing_ccy_for_ticker (core : JVal) : Option String :=
  let meta := if core.hasKey "meta" then core.getD "meta" else .obj []
  let ccy := jOr (meta.getD "currency") (meta.getD "listing_currency")
  if ccy.jTruthy then some (strUpper (jToStr ccy))
  else
    match all_periods_sorted core with
    | [] => none
    | p0 :: _ =>
      match detect_period_currency p0 with
      | some det => some (strUpper det)
      | none => none

/-- balance_sheet_metrics.current_ratio. -/
def current_ratio (period : JVal) : Option ℚ :=
  match get_balance_value period "assets_current",
        get_balance_value period "liab_current" with
  | some ca, some cl => if cl = 0 then none else some (ca / cl)
  | _, _ => none

/-- balance_sheet_metrics.de_ratio: total liabilities over equity
(TA − TL); absent when either input is absent or equity is exactly zero. -/
def de_ratio (period : JVal) : Option ℚ :=
  match get_balance_value period "assets_total",
        get_balance_value period "liab_total" with
  | some ta, some tl =>
    let equity := ta - tl
    if equity = 0 then none else some (tl / equity)
  | _, _ => none

/-- balance_sheet_metrics.ncav_total_native: CA − TL, with CA falling back
to total assets when current assets are unavailable. -/
def ncav_total_native (period : JVal) : Option ℚ :=
  let ca :=
    match get_balance_value period "assets_current" with
    | some v => some v
    | none => get_balance_value period "assets_total"
  match ca, get_balance_value period "liab_total" with
  | some ca, some tl => some (ca - tl)
  | _, _ => none

/-- balance_sheet_metrics.ncav_total_usd (inherits convert_between's
exception behavior). -/
def ncav_total_usd (period : JVal) (fx_rates : List (String × ℚ)) :
    Except String (Option ℚ) :=
  match ncav_total_native period with
  | none => .ok none
  | some native =>
    convert_between (some native) (detect_period_currency period) (some "USD") fx_rates

/-- balance_sheet_metrics.compute_ncav_ps_from_period. -/
def compute_ncav_ps_from_period (period : JVal) (shares_out : Option ℚ) :
    Option ℚ :=
  match ncav_total_native period with
  | none => none
  | some total =>
    match shares_out with
    | none => none
    | some s => if s = 0 then none else some (total / s)

/- ----------------------------------------------------------------
   domain/services/trend_analysis.py
   ---------------------------------------------------------------- -/

/-- trend_analysis.pct_change: (new − old) / |old|; absent when either is
absent or old is zero. -/
def pct_change (old new : Option ℚ) : Option ℚ :=
  match old, new with
  | some o, some n => if o = 0 then none else some ((n - o) / |o|)
  | _, _ => none

/-- The day gap between two datetimes, Python `(newer - older).days`
(timedelta days are the floor of the rational day difference). -/
def dayGap (newer older : ℚ) : ℤ := ⌊newer - older⌋

/-- trend_analysis._pick_pair_by_gap: among the dated snapshots, fix the
newest and scan the rest for the first whose gap to it is within
`tolerance_days` of `approx_days`; if none matches, fall back to the two
most-recent dated snapshots. -/
def _pick_pair_by_gap (periods : List JVal) (approx_days tolerance_days : ℤ) :
    Option (JVal × JVal) :=
  let dated : List (JVal × ℚ) :=
    periods.filterMap (fun p => (_extract_period_date p).map (fun d => (p, d)))
  match dated with
  | (p0, d0) :: (p1, d1) :: rest =>
    match ((p1, d1) :: rest).find?
        (fun pd => decide (|dayGap d0 pd.2 - approx_days| ≤ tolerance_days)) with
    | some (older, _) => some (p0, older)
    | none => some (p0, p1)
  | _ => none

/-- trend_analysis.pair_for_qoq: about 90 days apart, give or take 45. -/
def pair_for_qoq (periods : List JVal) : Option (JVal × JVal) :=
  _pick_pair_by_gap periods 90 45

/-- trend_analysis.pair_for_hoh: about 180 days apart, give or take 60. -/
def pair_for_hoh (periods : List JVal) : Option (JVal × JVal) :=
  _pick_pair_by_gap periods 180 60

/-- trend_analysis.pair_for_yoy: about 365 days apart, give or take 90. -/
def pair_for_yoy (periods : List JVal) : Option (JVal × JVal) :=
  _pick_pair_by_gap periods 365 90

/-- trend_analysis._shares_out: first share-count key whose stored value is
not None wins (its coercion is returned even when it fails); then the same
keys inside `meta`. -/
def _shares_out (period : JVal) : Option ℚ :=
  if !period.jTruthy then none
  else
    let tryKeys := fun (container : JVal) =>
      match container.getD "shares_out" with
      | .null =>
        match container.getD "shares_outstanding" with
        | .null =>
          match container.getD "basic_shares_out" with
          | .null => none
          | v => some (safe_float v)
        | v => some (safe_float v)
      | v => some (safe_float v)
    match tryKeys period with
    | some r => r
    | none =>
      let meta := jOr (period.getD "meta") (.obj [])
      match tryKeys meta with
      | some r => r
      | none => none

/-- trend_analysis._pct_change_shares. -/
def _pct_change_shares (newer older : JVal) : Option ℚ :=
  pct_change (_shares_out older) (_shares_out newer)

/-- trend_analysis.DilutionWindowStats. -/
structure DilutionWindowStats where
  max_issue : Option ℚ
  max_buyback : Option ℚ
deriving Repr, DecidableEq

/-- The running-max/min update of _max_change_within_days for one examined
pair. -/
def updStats (s : DilutionWindowStats) (chg : ℚ) : DilutionWindowStats :=
  { max_issue :=
      match s.max_issue with
      | none => some chg
      | some m => if chg > m then some chg else some m
    max_buyback :=
      match s.max_buyback with
      | none => some chg
      | some m => if chg < m then some chg else some m }

/-- Inner loop of _max_change_within_days: pairs the fixed newer snapshot
with each older one, skipping negative or over-window gaps and undefined
changes. -/
def dilInner (pNew : JVal) (dNew : ℚ) (window_days : ℤ) :
    List (JVal × ℚ) → DilutionWindowStats → DilutionWindowStats
  | [], s => s
  | (pOld, dOld) :: rest, s =>
    let gap := dayGap dNew dOld
    if gap < 0 then dilInner pNew dNew window_days rest s
    else if gap > window_days then dilInner pNew dNew window_days rest s
    else
      match _pct_change_shares pNew pOld with
      | none => dilInner pNew dNew window_days rest s
      | some chg => dilInner pNew dNew window_days rest (updStats s chg)

/-- Outer loop of _max_change_within_days over every (newer i, older j>i)
index pair of the dated snapshots. -/
def dilOuter (window_days : ℤ) :
    List (JVal × ℚ) → DilutionWindowStats → DilutionWindowStats
  | [], s => s
  | (p, d) :: rest, s => dilOuter window_days rest (dilInner p d window_days rest s)

/-- trend_analysis._max_change_within_days. -/
def _max_change_within_days (periods : List JVal) (window_days : ℤ) :
    DilutionWindowStats :=
  let dated : List (JVal × ℚ) :=
    periods.filterMap (fun p => (_extract_period_date p).map (fun d => (p, d)))
  dilOuter window_days dated ⟨none, none⟩

/-- trend_analysis.max_dilution_within_1y. -/
def max_dilution_within_1y (periods : List JVal) : Option ℚ :=
  (_max_change_within_days periods 365).max_issue

/-- trend_analysis.max_change_within_3y. -/
def max_change_within_3y (periods : List JVal) : DilutionWindowStats :=
  _max_change_within_days periods 1095

/- ----------------------------------------------------------------
   domain/services/data_quality.py
   ---------------------------------------------------------------- -/

/-- data_quality.assess_staleness, with the ambient clock (the source
defaults `now_dt` to `datetime.utcnow()`) passed explicitly. -/
def assess_staleness (latest_period : JVal) (now_dt : ℚ)
    (stale_after_days : ℤ := 540) : Bool × Option ℤ :=
  match latest_period with
  | .null => (true, none)
  | lp =>
    match _extract_period_date lp with
    | none => (true, none)
    | some d =>
      let age_days := dayGap now_dt d
      (decide (age_days > stale_after_days), some age_days)

/- ----------------------------------------------------------------
   domain/services/insider_classifier.py
   ---------------------------------------------------------------- -/

/-- The stats dict returned next to the insider headline. -/
structure InsiderStats where
  total_buy_trades : Option ℚ
  total_sell_trades : Option ℚ
  net_shares_change : Option ℚ
  last_activity_date : JVal
  source : JVal

/-- The two-scheme lookup insider_signal performs per logical quantity:
use the primary key when present (even if its value coerces to None), else
the legacy key. -/
def insiderField (blob : JVal) (primary alt : String) : Option ℚ :=
  if blob.hasKey primary then safe_float (blob.getD primary)
  else safe_float (blob.getD alt)

/-- insider_classifier.insider_signal: "None" on a falsy blob or when all
three quantities are absent; otherwise a provisional Net Buy / Net Sell
from the sign of net_shares_change, then the buy-trades / sell-trades
dominance overrides in source order. Inside the override branch both
counts are known present, so the `or ... is None` halves of the source
conditions are vacuous. -/
def insider_signal (insider_blob : JVal) : String × InsiderStats :=
  if !insider_blob.jTruthy then
    ("None", ⟨none, none, none, .null, .null⟩)
  else
    let total_buy := insiderField insider_blob "total_buy_trades" "buys_count"
    let total_sell := insiderField insider_blob "total_sell_trades" "sells_count"
    let net_chg := insiderField insider_blob "net_shares_change" "net_shares"
    let last_dt := jOr (insider_blob.getD "last_activity_date")
                       (insider_blob.getD "as_of")
    let src := insider_blob.getD "source"
    let headline :=
      if total_buy = none ∧ total_sell = none ∧ net_chg = none then "None"
      else
        let h := "Unknown"
        let h :=
          match net_chg with
          | some n => if n > 0 then "Net Buy" else if n < 0 then "Net Sell" else h
          | none => h
        match total_buy, total_sell with
        | some b, some s =>
          let h := if b > 0 ∧ s = 0 then "Buy" else h
          if s > 0 ∧ b = 0 then "Sell" else h
        | _, _ => h
    (headline, ⟨total_buy, total_sell, net_chg, last_dt, src⟩)

/- ----------------------------------------------------------------
   domain/services/flag_classifier.py
   ---------------------------------------------------------------- -/

/-- One rule of classify_flags: emit the label when the input is present
and the threshold test holds, else nothing. -/
def flagIf (v : Option ℚ) (cond : ℚ → Bool) (s : String) : List String :=
  match v with
  | some x => if cond x then [s] else []
  | none => []

/-- flag_classifier.classify_flags: fixed-order green and red rules; each
absent input silently skips its rule. The three-way NCAV-burn and dilution
loops are unrolled with their exact f-string labels. -/
def classify_flags (price_to_ncavps cr de ncav_qoq ncav_hoh ncav_yoy
    dil_qoq dil_hoh dil_yoy max_dil_1y max_issue_3y max_buyback_3y : Option ℚ)
    (is_outdated : Bool) : List String × List String :=
  let green :=
    flagIf price_to_ncavps (fun p => decide (p ≤ 2/3)) "Trading ≤ 2/3 NCAV" ++
    flagIf cr (fun c => decide (c ≥ 2)) "Current ratio ≥ 2" ++
    flagIf max_buyback_3y (fun b => decide (b < -(5/100))) "Meaningful buyback in last 3y" ++
    flagIf ncav_yoy (fun y => decide (y ≥ 0)) "NCAV stable YoY or improving"
  let red :=
    (if is_outdated then ["Financials are stale"] else []) ++
    flagIf de (fun d => decide (d > 3/2)) "High leverage" ++
    flagIf ncav_qoq (fun c => decide (c < -(2/10))) "NCAV down QoQ >20%" ++
    flagIf ncav_hoh (fun c => decide (c < -(2/10))) "NCAV down HoH >20%" ++
    flagIf ncav_yoy (fun c => decide (c < -(2/10))) "NCAV down YoY >20%" ++
    flagIf dil_qoq (fun d => decide (d > 5/100)) "Dilution QoQ >5%" ++
    flagIf dil_hoh (fun d => decide (d > 5/100)) "Dilution HoH >5%" ++
    flagIf dil_yoy (fun d => decide (d > 5/100)) "Dilution YoY >5%" ++
    flagIf max_dil_1y (fun m => decide (m > 8/100)) "Issued >8% in last 12m" ++
    flagIf max_issue_3y (fun m => decide (m > 2/10)) "Issued >20% in last 3y"
  (green, red)

/- ----------------------------------------------------------------
   domain/models/valuation_result.py
   ---------------------------------------------------------------- -/

/-- models.valuation_result.ValuationResult: unvalidated dataclass fields
keep whatever value the orchestrator passes, so identity and diagnostic
fields are modeled as raw values. -/
structure ValuationResult where
  ticker : JVal
  exchange : JVal
  country_iso : JVal
  sector : JVal
  industry : JVal
  reporting_currency : Option String
  latest_fs_date : JVal
  current_ratio : Option ℚ
  debt_to_equity : Option ℚ
  ncav_total_native : Option ℚ
  ncav_total_usd : Option ℚ
  ncav_per_share : Option ℚ
  ncav_ps_shortlist : JVal
  shares_out : Option ℚ
  last_price : Option ℚ
  price_to_ncavps : Option ℚ
  margin_of_safety : Option ℚ
  fx_rate_used : Option ℚ
  fx_source : Option String
  ncavps_fx_note : Option String
  ncav_change_qoq : Option ℚ
  ncav_change_hoh : Option ℚ
  ncav_change_yoy : Option ℚ
  dilution_qoq : Option ℚ
  dilution_hoh : Option ℚ
  dilution_yoy : Option ℚ
  max_dilution_1y : Option ℚ
  max_issue_3y : Option ℚ
  max_buyback_3y : Option ℚ
  is_outdated : Bool
  data_age_days : Option ℤ
  fs_source : JVal
  note : JVal
  insider_signal : String
  green_flags : List String
  red_flags : List String
  core_period_count : ℕ
  insider_records : Option ℚ
  latest_period_label : Option String
  listing_note : JVal
  passes_price_to_ncav_rule : Bool
  has_recent_buyback : Bool
  has_recent_dilution : Bool

/- ----------------------------------------------------------------
   domain/services/netnet_analysis.py
   ---------------------------------------------------------------- -/

/-- One container pass of netnet_analysis._extract_shares_out: for each
share-count key in order, unwrap a `val` cell and coerce; a failed coercion
moves on to the next key (unlike trend_analysis._shares_out). -/
def sharesFromContainer (c : JVal) : Option ℚ :=
  match _extract_val (c.getD "shares_out") with
  | some v => some v
  | none =>
    match _extract_val (c.getD "shares_outstanding") with
    | some v => some v
    | none => _extract_val (c.getD "basic_shares_out")

/-- netnet_analysis._extract_shares_out: flat period, then the balance
container when it is a dict, then the meta container. -/
def _extract_shares_out (period : JVal) : Option ℚ :=
  if !period.jTruthy then none
  else
    match sharesFromContainer period with
    | some v => some v
    | none =>
      let fromBal :=
        match period.getD "balance" with
        | .obj fs => sharesFromContainer (.obj fs)
        | _ => none
      match fromBal with
      | some v => some v
      | none =>
        match period.getD "meta" with
        | .obj fs => sharesFromContainer (.obj fs)
        | _ => none

/-- Python `periods[0] if periods else None`. -/
def headOrNull : List JVal → JVal
  | [] => .null
  | p :: _ => p

/-- The present-and-at-most test of the convenience booleans. -/
def optAtMost (v : Option ℚ) (c : ℚ) : Bool :=
  match v with
  | some x => decide (x ≤ c)
  | none => false

/-- The present-and-exceeds test of the convenience booleans. -/
def optExceeds (v : Option ℚ) (c : ℚ) : Bool :=
  match v with
  | some x => decide (x > c)
  | none => false

/-- The present-and-under test of the convenience booleans. -/
def optUnder (v : Option ℚ) (c : ℚ) : Bool :=
  match v with
  | some x => decide (x < c)
  | none => false

/-- The valuation-ratio step of analyze_one_ticker: ratio and (via map)
margin are produced only when the last price is present and NCAV per
share is present and nonzero (`last_price is not None and ncav_ps not in
(None, 0)` in the source). -/
def priceToNcavps (last_price ncav_ps : Option ℚ) : Option ℚ :=
  match last_price, ncav_ps with
  | some p, some n => if n = 0 then none else some (p / n)
  | _, _ => none

/-- The pure body of netnet_analysis.analyze_one_ticker: every let-bound
intermediate of the source in order, with the already-computed USD NCAV
(the one fallible intermediate) passed in, packaged into the result
record. -/
def analyzeRecord (core insider_blob : JVal) (last_price : Option ℚ)
    (fx_rates : List (String × ℚ)) (now_dt : ℚ) (ncav_usd : Option ℚ) :
    ValuationResult :=
  let periods := all_periods_sorted core
  let latest : JVal := headOrNull periods
  let cr := current_ratio latest
  let de := de_ratio latest
  let ncav_native := ncav_total_native latest
  let shares := _extract_shares_out latest
  let ncav_ps := compute_ncav_ps_from_period latest shares
  let listing_ccy := listing_ccy_for_ticker core
  let price_to_ncavps : Option ℚ := priceToNcavps last_price ncav_ps
  let margin_of_safety : Option ℚ := price_to_ncavps.map (fun r => 1 - r)
  let q_pair := pair_for_qoq periods
  let h_pair := pair_for_hoh periods
  let y_pair := pair_for_yoy periods
  let ncav_from : JVal → Option ℚ := fun p =>
    if p.jTruthy then ncav_total_native p else none
  let ncav_qoq := pct_change
    (match q_pair with | some pr => ncav_from pr.2 | none => none)
    (match q_pair with | some pr => ncav_from pr.1 | none => none)
  let ncav_hoh := pct_change
    (match h_pair with | some pr => ncav_from pr.2 | none => none)
    (match h_pair with | some pr => ncav_from pr.1 | none => none)
  let ncav_yoy := pct_change
    (match y_pair with | some pr => ncav_from pr.2 | none => none)
    (match y_pair with | some pr => ncav_from pr.1 | none => none)
  let dil_from : Option (JVal × JVal) → Option ℚ := fun pair =>
    match pair with
    | none => none
    | some pr => pct_change (_extract_shares_out pr.2) (_extract_shares_out pr.1)
  let dilution_qoq := dil_from q_pair
  let dilution_hoh := dil_from h_pair
  let dilution_yoy := dil_from y_pair
  let max_dil_1y := max_dilution_within_1y periods
  let win3 := max_change_within_3y periods
  let staleness := assess_staleness latest now_dt
  let is_outdated := staleness.1
  let age_days := staleness.2
  let insiderRes := insider_signal insider_blob
  let flags := classify_flags price_to_ncavps cr de ncav_qoq ncav_hoh ncav_yoy
    dilution_qoq dilution_hoh dilution_yoy max_dil_1y win3.max_issue
    win3.max_buyback is_outdated
  let latest_fs_date : JVal :=
    if latest.jTruthy then jOr (latest.getD "statement_date") (latest.getD "date")
    else .null
  let latest_label : Option String :=
    if latest.jTruthy then some (jToStr latest_fs_date) else none
  let meta := core.getD "meta"
  let ticker := meta.getD "ticker"
  {
    ticker := ticker
    exchange := meta.getD "exchange"
    country_iso := meta.getD "country_iso"
    sector := meta.getD "sector"
    industry := meta.getD "industry"
    reporting_currency := listing_ccy
    latest_fs_date := latest_fs_date
    current_ratio := cr
    debt_to_equity := de
    ncav_total_native := ncav_native
    ncav_total_usd := ncav_usd
    ncav_per_share := ncav_ps
    ncav_ps_shortlist := meta.getD "ncav_ps_shortlist"
    shares_out := shares
    last_price := last_price
    price_to_ncavps := price_to_ncavps
    margin_of_safety := margin_of_safety
    fx_rate_used := none
    fx_source := some "cache"
    ncavps_fx_note := none
    ncav_change_qoq := ncav_qoq
    ncav_change_hoh := ncav_hoh
    ncav_change_yoy := ncav_yoy
    dilution_qoq := dilution_qoq
    dilution_hoh := dilution_hoh
    dilution_yoy := dilution_yoy
    max_dilution_1y := max_dil_1y
    max_issue_3y := win3.max_issue
    max_buyback_3y := win3.max_buyback
    is_outdated := is_outdated
    data_age_days := age_days
    fs_source := core.getD "fs_source"
    note := core.getD "note"
    insider_signal := insiderRes.1
    green_flags := flags.1
    red_flags := flags.2
    core_period_count := periods.length
    insider_records := insiderRes.2.total_buy_trades
    latest_period_label := latest_label
    listing_note := meta.getD "listing_note"
    passes_price_to_ncav_rule := optAtMost price_to_ncavps (2/3)
    has_recent_buyback := optUnder win3.max_buyback (-(5/100))
    has_recent_dilution := optExceeds win3.max_issue (8/100)
  }

/-- netnet_analysis.analyze_one_ticker: the single orchestrator entry
point. The ambient clock consumed by assess_staleness is passed in as
`now_dt`; the Except layer carries the two ways the source can raise — a
ZeroDivisionError escaping convert_between, and a KeyError from the
mandatory `core["meta"]["ticker"]` subscriptions — while the pure
remainder of the body lives in analyzeRecord. -/
def analyze_one_ticker (core insider_blob : JVal) (last_price : Option ℚ)
    (fx_rates : List (String × ℚ)) (now_dt : ℚ) :
    Except String ValuationResult :=
  match convert_between (ncav_total_native (headOrNull (all_periods_sorted core)))
      (listing_ccy_for_ticker core) (some "USD") fx_rates with
  | .error e => .error e
  | .ok ncav_usd =>
    if core.hasKey "meta" then
      if (core.getD "meta").hasKey "ticker" then
        .ok (analyzeRecord core insider_blob last_price fx_rates now_dt ncav_usd)
      else .error "KeyError"
    else .error "KeyError"

/- ----------------------------------------------------------------
   tools/ncav_cache.py (viable-snapshot selector)
   ---------------------------------------------------------------- -/

/-- One balance-sheet column as tools/ncav_cache sees it: the parsed
column date (`_norm_date`/`pd.to_datetime`, none when unparseable, so
`date_iso` and `dt` collapse to one field) and the NaN-coerced (`_f`)
results of the seven `_pick` row lookups that `_values_for_column`
consumes. The pandas row picking itself (synonym and substring matching
over row labels) is abstracted into these per-column lookup results. -/
structure BSColumn where
  date : Option ℤ
  ca : Option ℚ
  ta : Option ℚ
  nca : Option ℚ
  tl : Option ℚ
  cl : Option ℚ
  ncl : Option ℚ
  wc : Option ℚ

/-- ncav_cache._values_for_column: the sequential fallback derivations
(CL from TL−NCL; CA from WC+CL, then TA−NCA; TL from CL+NCL), returning
the (assets_current, liab_total) pair. -/
def _values_for_column (c : BSColumn) : Option ℚ × Option ℚ :=
  let cl1 : Option ℚ :=
    match c.cl, c.tl, c.ncl with
    | none, some tl, some ncl => some (tl - ncl)
    | cl, _, _ => cl
  let ca1 : Option ℚ :=
    match c.ca, c.wc, cl1 with
    | none, some wc, some cl => some (wc + cl)
    | ca, _, _ => ca
  let ca2 : Option ℚ :=
    match ca1, c.ta, c.nca with
    | none, some ta, some nca => some (ta - nca)
    | ca, _, _ => ca
  let tl1 : Option ℚ :=
    match c.tl, cl1, c.ncl with
    | none, some cl, some ncl => some (cl + ncl)
    | tl, _, _ => tl
  (ca2, tl1)

/-- One candidate row of ncav_cache._collect_candidates. -/
structure Cand where
  date : Option ℤ
  vals : Option ℚ × Option ℚ
  source : String

/-- The sort key's date component: a missing date sorts below every real
one (`pd.Timestamp.min` in the source). -/
def candDateW (c : Cand) : WithBot ℤ :=
  match c.date with
  | none => ⊥
  | some d => (d : WithBot ℤ)

/-- The sort key's tie-break component: quarterly above annual. -/
def candPrio (c : Cand) : ℕ := if c.source = "quarterly" then 1 else 0

/-- The full lexicographic sort key of _collect_candidates. -/
def candKey (c : Cand) : Lex (WithBot ℤ × ℕ) := toLex (candDateW c, candPrio c)

/-- ncav_cache._collect_candidates: one candidate per column, annual bucket
first, then sorted newest-first with quarterly preferred on a date tie
(Python `sort(key=..., reverse=True)`, stable descending; computed with
the stable `insertionSort` on the ≥ key comparison, which agrees with it
as a function). -/
def _collect_candidates (bs_a bs_q : List BSColumn) : List Cand :=
  let mkCands := fun (source : String) (df : List BSColumn) =>
    df.map (fun col => Cand.mk col.date (_values_for_column col) source)
  let cands := mkCands "annual" bs_a ++ mkCands "quarterly" bs_q
  cands.insertionSort (fun a b => candKey b ≤ candKey a)

/-- The walk predicate of _select_latest_viable_ncavps: dated, not older
than the cutoff, and with both derived values present. With a positive
share count the subsequent NCAV-per-share probe `(ca - tl) / shares_out`
cannot raise, so it filters nothing further. -/
def candViable (cutoff : ℤ) (c : Cand) : Bool :=
  match c.date with
  | none => false
  | some d => decide (cutoff ≤ d) && c.vals.1.isSome && c.vals.2.isSome

/-- ncav_cache._select_latest_viable_ncavps, with the ambient
`datetime.now(timezone.utc).date()` passed in as `now`. The source's
early return on an empty candidate list yields the same failure triple as
an exhausted walk, and is subsumed by it. -/
def _select_latest_viable_ncavps (bs_a bs_q : List BSColumn)
    (shares_out : Option ℚ) (now : ℤ) (max_age_days : ℤ := 730) :
    Option ℤ × (Option ℚ × Option ℚ) × Option String :=
  match shares_out with
  | none => (none, (none, none), none)
  | some s =>
    if s ≤ 0 then (none, (none, none), none)
    else
      let cands := _collect_candidates bs_a bs_q
      let cutoff := now - max_age_days
      match cands.find? (candViable cutoff) with
      | some c => (c.date, c.vals, some c.source)
      | none => (none, (none, none), none)

/- ----------------------------------------------------------------
   Specification-side comparison definitions
   ---------------------------------------------------------------- -/

/-- The conversion result exactly as the specification words it (section
4.1): absent on absent amount/codes, unchanged on equal codes, absent on a
missing required rate, else cross through USD with `usd / table[to]`.
Stated totally (no exception case) because the spec says "Never raises". -/
def convertSpec (amount : Option ℚ) (from_ccy to_ccy : Option String)
    (fx_rates : List (String × ℚ)) : Option ℚ :=
  match amount, from_ccy, to_ccy with
  | some amt, some f, some t =>
    let fN := _ccy_alias f
    let tN := _ccy_alias t
    if fN = tN then some amt
    else
      match lookupRate fx_rates fN with
      | none => none
      | some rf =>
        let usd := amt * rf
        if tN = "USD" then some usd
        else
          match lookupRate fx_rates tN with
          | none => none
          | some rt => some (usd / rt)
  | _, _, _ => none

/-- The dated-snapshot list `[(period, date)]` shared by the trend
functions (their common `dated = ...` preamble). -/
def datedOf (periods : List JVal) : List (JVal × ℚ) :=
  periods.filterMap (fun p => (_extract_period_date p).map (fun d => (p, d)))

/-- Specification-side enumeration for the windowed-extrema claim: the
defined share-count percent changes over every (newer i, older j > i) pair
of dated snapshots whose day gap lies in [0, window]. -/
def qualChanges (w : ℤ) : List (JVal × ℚ) → List ℚ
  | [] => []
  | (p, d) :: rest =>
    rest.filterMap (fun qd =>
      if 0 ≤ dayGap d qd.2 ∧ dayGap d qd.2 ≤ w then _pct_change_shares p qd.1
      else none)
    ++ qualChanges w rest

/- ----------------------------------------------------------------
   Claim theorems
   ---------------------------------------------------------------- -/

/-- C3 counterexample: convert_between does raise. Cross-converting 1 USD
into JPY over a table whose JPY rate is 0 reaches the Python division
`1.0 / 0.0` and raises ZeroDivisionError instead of returning a value or
absence, refuting the claim that convert_between never raises for every
rate table including ones with a zero target rate. -/
theorem C3_counterexample :
    convert_between (some 1) (some "USD") (some "JPY") [("USD", 1), ("JPY", 0)]
      = Except.error "ZeroDivisionError" := by
  rfl

/-- C3 amended: for every amount, source and target codes, and rate table
in which the normalized target code's rate is not zero, convert_between
raises nothing and returns exactly the specification's value: absent when
amount or either code is absent or a required rate is missing, the amount
unchanged on equal normalized codes, and usd / table[to] when
cross-converting. -/
theorem C3_convert_between_refines_spec
    (amount : Option ℚ) (from_ccy to_ccy : Option String)
    (fx_rates : List (String × ℚ))
    (h : ∀ t, to_ccy = some t → lookupRate fx_rates (_ccy_alias t) ≠ some 0) :
    convert_between amount from_ccy to_ccy fx_rates
      = Except.ok (convertSpec amount from_ccy to_ccy fx_rates) := by
  cases amount with
  | none => cases from_ccy <;> cases to_ccy <;> rfl
  | some amt =>
    cases from_ccy with
    | none => cases to_ccy <;> rfl
    | some f =>
      cases to_ccy with
      | none => rfl
      | some t =>
        have ht := h t rfl
        unfold convert_between convertSpec
        by_cases hft : _ccy_alias f = _ccy_alias t
        · simp [hft]
        · simp only [if_neg hft]
          cases hrf : lookupRate fx_rates (_ccy_alias f) with
          | none => rfl
          | some rf =>
            by_cases htu : _ccy_alias t = "USD"
            · simp [htu]
            · simp only [if_neg htu]
              cases hrt : lookupRate fx_rates (_ccy_alias t) with
              | none => rfl
              | some rt =>
                have hrt0 : rt ≠ 0 := fun h0 => ht (h0 ▸ hrt)
                simp only [if_neg hrt0]
                rw [one_div, ← div_eq_mul_inv]

/-- Witness for the amended C3 theorem at the spec's own cross-conversion
test vector: 100 JPY into HKD over nonzero rates comes back without an
exception and equals 5.234375. -/
theorem C3_convert_between_refines_spec_witness :
    convert_between (some 100) (some "JPY") (some "HKD")
        [("JPY", 67/10000), ("HKD", 128/1000)]
      = Except.ok (convertSpec (some 100) (some "JPY") (some "HKD")
        [("JPY", 67/10000), ("HKD", 128/1000)])
    ∧ convertSpec (some 100) (some "JPY") (some "HKD")
        [("JPY", 67/10000), ("HKD", 128/1000)] = some (335/64) := by
  constructor
  · exact C3_convert_between_refines_spec _ _ _ _ (by
      intro t ht
      injection ht with h
      subst h
      simp [lookupRate, _ccy_alias, strUpper])
  · simp [convertSpec, lookupRate, _ccy_alias, strUpper]
    norm_num

/-- C7 counterexample: convert_between consults the rate table with the
table's keys verbatim, so changing only the letter case of a table key
changes the result: with the key "jpy" the JPY rate is not found and the
conversion is absent, with "JPY" it succeeds. -/
theorem C7_counterexample :
    convert_between (some 100) (some "JPY") (some "USD") [("jpy", 67/10000)]
      = Except.ok none
    ∧ convert_between (some 100) (some "JPY") (some "USD") [("JPY", 67/10000)]
      = Except.ok (some (100 * (67/10000)))
    ∧ (Except.ok none : Except String (Option ℚ))
      ≠ Except.ok (some (100 * (67/10000))) := by
  refine ⟨?_, ?_, ?_⟩
  · simp [convert_between, lookupRate, _ccy_alias, strUpper]
  · simp [convert_between, lookupRate, _ccy_alias, strUpper]
  · intro h
    injection h with h2
    exact Option.noConfusion h2

/-- C7 amended: convert_between normalizes only the supplied currency
codes, so changing their letter case or alias form (RMB/CNH vs CNY) never
changes the result; the table's keys are matched verbatim, and table-key
case/alias insensitivity holds exactly for tables built by
_normalize_rates, which alias-normalizes every key (raw tables whose keys
agree after alias normalization normalize to the same table); a genuinely
missing rate — for the source code, or for the target code when it is not
USD — yields absent, never zero. -/
theorem C7_lookup_normalization :
    (∀ (amount : Option ℚ) (f f' t t' : String) (fx : List (String × ℚ)),
      _ccy_alias f = _ccy_alias f' → _ccy_alias t = _ccy_alias t' →
      convert_between amount (some f) (some t) fx
        = convert_between amount (some f') (some t') fx)
    ∧ (∀ (raw : List (String × Option ℚ)) (σ : String → String),
      (∀ k, _ccy_alias (σ k) = _ccy_alias k) →
      _normalize_rates (raw.map (fun p => (σ p.1, p.2))) = _normalize_rates raw)
    ∧ (∀ (amt : ℚ) (f t : String) (fx : List (String × ℚ)),
      _ccy_alias f ≠ _ccy_alias t →
      lookupRate fx (_ccy_alias f) = none →
      convert_between (some amt) (some f) (some t) fx = Except.ok none)
    ∧ (∀ (amt rf : ℚ) (f t : String) (fx : List (String × ℚ)),
      _ccy_alias f ≠ _ccy_alias t →
      lookupRate fx (_ccy_alias f) = some rf →
      _ccy_alias t ≠ "USD" →
      lookupRate fx (_ccy_alias t) = none →
      convert_between (some amt) (some f) (some t) fx = Except.ok none) := by
  refine ⟨?_, ?_, ?_, ?_⟩
  · intro amount f f' t t' fx h1 h2
    cases amount with
    | none => rfl
    | some amt => simp only [convert_between, h1, h2]
  · intro raw σ hσ
    unfold _normalize_rates
    rw [List.foldl_map]
    apply List.foldl_ext
    intro acc p _
    cases hp : p.2 with
    | none => simp [hp]
    | some v => simp [hp, hσ]
  · intro amt f t fx hft hf
    simp only [convert_between, if_neg hft, hf]
  · intro amt rf f t fx hft hf htu ht
    simp only [convert_between, if_neg hft, hf, if_neg htu, ht]

/-- Witness for the amended C7 theorem: supplied-code insensitivity at the
RMB/CNH alias pair, _normalize_rates key insensitivity at a lower-case raw
key, and absence (not zero) on a missing source rate. -/
theorem C7_lookup_normalization_witness :
    convert_between (some 1) (some "rmb") (some "usd") [("CNY", 1/7)]
      = convert_between (some 1) (some "CNH") (some "USD") [("CNY", 1/7)]
    ∧ _normalize_rates [("jpy", some (67/10000))]
      = _normalize_rates [("JPY", some (67/10000))]
    ∧ convert_between (some 5) (some "EUR") (some "USD") [] = Except.ok none := by
  refine ⟨?_, ?_, ?_⟩
  · exact C7_lookup_normalization.1 (some 1) "rmb" "CNH" "usd" "USD" _
      (by simp [_ccy_alias, strUpper]) (by simp [_ccy_alias, strUpper])
  · exact C7_lookup_normalization.2.1 [("JPY", some (67/10000))]
      (fun s => if s = "JPY" then "jpy" else s)
      (by
        intro k
        by_cases hk : k = "JPY"
        · subst hk
          simp [_ccy_alias, strUpper]
        · simp [hk])
  · exact C7_lookup_normalization.2.2.1 5 "EUR" "USD" []
      (by simp [_ccy_alias, strUpper]) rfl

/-- Concrete three-period timeline for the pairing claim: dated today (0),
95 days ago, 400 days ago. -/
def c2p0 : JVal := .obj [("date", .date 0)]

def c2p1 : JVal := .obj [("date", .date (-95))]

def c2p2 : JVal := .obj [("date", .date (-400))]

/-- C2 counterexample: on the timeline [today, today-95d, today-400d] the
YoY scan does find an in-tolerance candidate — the 400-day gap satisfies
|400-365| = 35 ≤ 90 — so pair_for_yoy returns the (today, today-400d)
pair, not the claimed fallback (today, today-95d): its older member is
dated -400, not -95. -/
theorem C2_counterexample :
    pair_for_yoy [c2p0, c2p1, c2p2] = some (c2p0, c2p2)
    ∧ (pair_for_yoy [c2p0, c2p1, c2p2]).map (fun pr => _extract_period_date pr.2)
      = some (some (-400))
    ∧ (some (some ((-400 : ℚ))) : Option (Option ℚ)) ≠ some (some ((-95 : ℚ)))
    ∧ _extract_period_date c2p1 = some (-95) := by
  refine ⟨?_, ?_, by decide, ?_⟩
  · simp [pair_for_yoy, _pick_pair_by_gap, c2p0, c2p1, c2p2,
      _extract_period_date, parse_date, JVal.getD, dayGap, List.find?]
  · simp [pair_for_yoy, _pick_pair_by_gap, c2p0, c2p1, c2p2,
      _extract_period_date, parse_date, JVal.getD, dayGap, List.find?]
  · simp [c2p1, _extract_period_date, parse_date, JVal.getD]

/-- C2 amended: on a three-period timeline dated [today, today-95d,
today-400d], pair_for_qoq pairs (today, today-95d) because |95-90| ≤ 45,
and pair_for_yoy pairs (today, today-400d) because |400-365| = 35 ≤ 90 —
the two-most-recent fallback is not exercised for YoY on this timeline. -/
theorem C2_pairing_amended (p0 p1 p2 : JVal) (today : ℚ)
    (h0 : _extract_period_date p0 = some today)
    (h1 : _extract_period_date p1 = some (today - 95))
    (h2 : _extract_period_date p2 = some (today - 400)) :
    pair_for_qoq [p0, p1, p2] = some (p0, p1)
    ∧ pair_for_yoy [p0, p1, p2] = some (p0, p2) := by
  have g1 : dayGap today (today - 95) = 95 := by
    unfold dayGap
    have h : today - (today - 95) = (95 : ℚ) := by ring
    rw [h]
    norm_num
  have g2 : dayGap today (today - 400) = 400 := by
    unfold dayGap
    have h : today - (today - 400) = (400 : ℚ) := by ring
    rw [h]
    norm_num
  constructor
  · simp [pair_for_qoq, _pick_pair_by_gap, h0, h1, h2, List.find?, g1, g2]
  · simp [pair_for_yoy, _pick_pair_by_gap, h0, h1, h2, List.find?, g1, g2]

/-- Witness for the amended C2 theorem at today = 0 on concrete periods. -/
theorem C2_pairing_amended_witness :
    pair_for_qoq [c2p0, c2p1, c2p2] = some (c2p0, c2p1)
    ∧ pair_for_yoy [c2p0, c2p1, c2p2] = some (c2p0, c2p2) :=
  C2_pairing_amended c2p0 c2p1 c2p2 0
    (by simp [c2p0, _extract_period_date, parse_date, JVal.getD])
    (by simp [c2p1, _extract_period_date, parse_date, JVal.getD])
    (by simp [c2p2, _extract_period_date, parse_date, JVal.getD])

/-- C8: the buy-dominance override. When both trade counts parse, the
sells are exactly zero and the buys positive, the headline is "Buy"
whatever net_shares_change said (symmetrically "Sell"), and on the
concrete blob of the claim — 3 buys, 0 sells, no net change — the
headline is "Buy". -/
theorem C8_insider_buy_dominance :
    (∀ (blob : JVal) (b : ℚ),
      insiderField blob "total_buy_trades" "buys_count" = some b →
      insiderField blob "total_sell_trades" "sells_count" = some 0 →
      0 < b → (insider_signal blob).1 = "Buy")
    ∧ (∀ (blob : JVal) (s : ℚ),
      insiderField blob "total_sell_trades" "sells_count" = some s →
      insiderField blob "total_buy_trades" "buys_count" = some 0 →
      0 < s → (insider_signal blob).1 = "Sell")
    ∧ (insider_signal
        (.obj [("total_buy_trades", .num 3), ("total_sell_trades", .num 0)])).1
      = "Buy" := by
  refine ⟨?_, ?_, ?_⟩
  · intro blob b hb hs hpos
    have ht : blob.jTruthy = true := by
      cases blob with
      | obj fs =>
        cases fs with
        | nil => simp [insiderField, safe_float, JVal.getD, JVal.hasKey] at hb
        | cons hd tl => simp [JVal.jTruthy]
      | null => simp [insiderField, safe_float, JVal.getD, JVal.hasKey] at hb
      | num x => simp [insiderField, safe_float, JVal.getD, JVal.hasKey] at hb
      | str s => simp [insiderField, safe_float, JVal.getD, JVal.hasKey] at hb
      | date d => simp [insiderField, safe_float, JVal.getD, JVal.hasKey] at hb
      | arr es => simp [insiderField, safe_float, JVal.getD, JVal.hasKey] at hb
    simp only [insider_signal, ht, Bool.not_true, Bool.false_eq_true, if_false, hb, hs]
    simp [hpos, ne_of_gt hpos, lt_irrefl]
  · intro blob s hs hb hpos
    have ht : blob.jTruthy = true := by
      cases blob with
      | obj fs =>
        cases fs with
        | nil => simp [insiderField, safe_float, JVal.getD, JVal.hasKey] at hb
        | cons hd tl => simp [JVal.jTruthy]
      | null => simp [insiderField, safe_float, JVal.getD, JVal.hasKey] at hb
      | num x => simp [insiderField, safe_float, JVal.getD, JVal.hasKey] at hb
      | str s => simp [insiderField, safe_float, JVal.getD, JVal.hasKey] at hb
      | date d => simp [insiderField, safe_float, JVal.getD, JVal.hasKey] at hb
      | arr es => simp [insiderField, safe_float, JVal.getD, JVal.hasKey] at hb
    simp only [insider_signal, ht, Bool.not_true, Bool.false_eq_true, if_false, hb, hs]
    simp [hpos, ne_of_gt hpos, lt_irrefl]
  · simp [insider_signal, insiderField, safe_float, JVal.getD, JVal.hasKey,
      JVal.jTruthy]

/-- Witness for C8 at a concrete blob with 5 buys, 0 sells and a negative
net change: the override supersedes the Net Sell classification. -/
theorem C8_insider_buy_dominance_witness :
    (insider_signal (.obj [("total_buy_trades", .num 5),
        ("total_sell_trades", .num 0), ("net_shares_change", .num (-100))])).1
      = "Buy" :=
  C8_insider_buy_dominance.1
    (.obj [("total_buy_trades", .num 5), ("total_sell_trades", .num 0),
      ("net_shares_change", .num (-100))]) 5
    (by simp [insiderField, safe_float, JVal.getD, JVal.hasKey])
    (by simp [insiderField, safe_float, JVal.getD, JVal.hasKey])
    (by norm_num)

/-- Membership in a single flag rule. -/
theorem mem_flagIf {a : String} {v : Option ℚ} {cond : ℚ → Bool} {s : String} :
    a ∈ flagIf v cond s ↔ ∃ x, v = some x ∧ cond x = true ∧ a = s := by
  cases v with
  | none => simp [flagIf]
  | some x => by_cases h : cond x <;> simp [flagIf, h]

/-- The "High leverage" red flag appears exactly when the debt-to-equity
input is present and exceeds 1.5. -/
theorem highLeverage_mem_iff (p cr de nq nh ny dq dh dy m1 m3 b3 : Option ℚ)
    (o : Bool) :
    "High leverage" ∈ (classify_flags p cr de nq nh ny dq dh dy m1 m3 b3 o).2
    ↔ ∃ d, de = some d ∧ d > 3/2 := by
  cases o <;>
    simp [classify_flags, mem_flagIf, List.mem_append]

/-- C9 counterexample: with negative liabilities the ratio can be positive
and large. For the period with total assets -10 and total liabilities -8,
liabilities exceed assets, yet de_ratio is +4 — not negative — and 4 > 1.5
does raise the "High leverage" red flag, refuting both halves of the
negative-equity claim. -/
theorem C9_counterexample :
    de_ratio (.obj [("assets_total", .num (-10)), ("liab_total", .num (-8))])
      = some 4
    ∧ ¬ (4 : ℚ) < 0
    ∧ "High leverage" ∈ (classify_flags none none
        (de_ratio (.obj [("assets_total", .num (-10)), ("liab_total", .num (-8))]))
        none none none none none none none none none false).2 := by
  have h4 : de_ratio (.obj [("assets_total", .num (-10)), ("liab_total", .num (-8))])
      = some 4 := by
    simp [de_ratio, get_balance_value, _extract_val, safe_float,
      JVal.getD, JVal.hasKey, JVal.jTruthy]
    norm_num
  refine ⟨h4, by norm_num, ?_⟩
  rw [highLeverage_mem_iff, h4]
  exact ⟨4, rfl, by norm_num⟩

/-- C9 amended: de_ratio is absent exactly when total assets or total
liabilities fail to resolve or equity (TA − TL) is exactly zero; for every
period where both resolve, liabilities are positive, and liabilities
exceed assets, the ratio is negative, and consequently such periods never
produce the "High leverage" red flag (with negative liabilities the ratio
can instead be positive and can exceed 1.5). -/
theorem C9_negative_equity_amended :
    (∀ period, de_ratio period = none ↔
      (get_balance_value period "assets_total" = none
       ∨ get_balance_value period "liab_total" = none
       ∨ ∃ ta tl, get_balance_value period "assets_total" = some ta
           ∧ get_balance_value period "liab_total" = some tl ∧ ta - tl = 0))
    ∧ (∀ period ta tl, get_balance_value period "assets_total" = some ta →
        get_balance_value period "liab_total" = some tl →
        ta < tl → 0 < tl →
        ∃ r, de_ratio period = some r ∧ r < 0)
    ∧ (∀ period ta tl, get_balance_value period "assets_total" = some ta →
        get_balance_value period "liab_total" = some tl →
        ta < tl → 0 < tl →
        ∀ (p cr nq nh ny dq dh dy m1 m3 b3 : Option ℚ) (o : Bool),
        "High leverage" ∉ (classify_flags p cr (de_ratio period)
          nq nh ny dq dh dy m1 m3 b3 o).2) := by
  have part2 : ∀ period ta tl,
      get_balance_value period "assets_total" = some ta →
      get_balance_value period "liab_total" = some tl →
      ta < tl → 0 < tl →
      ∃ r, de_ratio period = some r ∧ r < 0 := by
    intro period ta tl hta htl hlt htl0
    have hne : ta - tl ≠ 0 := sub_ne_zero.mpr (ne_of_lt hlt)
    refine ⟨tl / (ta - tl), ?_, ?_⟩
    · simp [de_ratio, hta, htl, hne]
    · exact div_neg_of_pos_of_neg htl0 (by linarith)
  refine ⟨?_, part2, ?_⟩
  · intro period
    cases hta : get_balance_value period "assets_total" with
    | none => simp [de_ratio, hta]
    | some ta =>
      cases htl : get_balance_value period "liab_total" with
      | none => simp [de_ratio, hta, htl]
      | some tl =>
        by_cases he : ta - tl = 0
        · simp [de_ratio, hta, htl, he]
        · simp [de_ratio, hta, htl, he]
  · intro period ta tl hta htl hlt htl0 p cr nq nh ny dq dh dy m1 m3 b3 o
    obtain ⟨r, hr, hrneg⟩ := part2 period ta tl hta htl hlt htl0
    rw [highLeverage_mem_iff, hr]
    rintro ⟨d, hd, hgt⟩
    injection hd with hd
    subst hd
    linarith

/-- Witness for the amended C9 theorem on the period with total assets 5
and total liabilities 10: the ratio resolves, is negative, and the flag
synthesizer raises no "High leverage" on it. -/
theorem C9_negative_equity_amended_witness :
    (∃ r, de_ratio (.obj [("assets_total", .num 5), ("liab_total", .num 10)])
        = some r ∧ r < 0)
    ∧ "High leverage" ∉ (classify_flags none none
        (de_ratio (.obj [("assets_total", .num 5), ("liab_total", .num 10)]))
        none none none none none none none none none false).2 := by
  constructor
  · exact C9_negative_equity_amended.2.1 _ 5 10
      (by simp [get_balance_value, _extract_val, safe_float, JVal.getD,
        JVal.hasKey, JVal.jTruthy])
      (by simp [get_balance_value, _extract_val, safe_float, JVal.getD,
        JVal.hasKey, JVal.jTruthy])
      (by norm_num) (by norm_num)
  · exact C9_negative_equity_amended.2.2 _ 5 10
      (by simp [get_balance_value, _extract_val, safe_float, JVal.getD,
        JVal.hasKey, JVal.jTruthy])
      (by simp [get_balance_value, _extract_val, safe_float, JVal.getD,
        JVal.hasKey, JVal.jTruthy])
      (by norm_num) (by norm_num)
      none none none none none none none none none none none false

/-- Inversion of a successful orchestrator run: the USD conversion
succeeded, the meta/ticker keys exist, and the result is the pure record
of the body. -/
theorem analyze_one_ticker_ok_inv (core insider_blob : JVal)
    (last_price : Option ℚ) (fx_rates : List (String × ℚ)) (now_dt : ℚ)
    (r : ValuationResult)
    (h : analyze_one_ticker core insider_blob last_price fx_rates now_dt
      = Except.ok r) :
    ∃ u, convert_between (ncav_total_native (headOrNull (all_periods_sorted core)))
        (listing_ccy_for_ticker core) (some "USD") fx_rates = Except.ok u
      ∧ core.hasKey "meta" = true
      ∧ (core.getD "meta").hasKey "ticker" = true
      ∧ r = analyzeRecord core insider_blob last_price fx_rates now_dt u := by
  unfold analyze_one_ticker at h
  split at h
  · exact absurd h (by simp)
  · rename_i u heq
    split at h
    · rename_i hm
      split at h
      · rename_i ht
        injection h with h
        exact ⟨u, heq, hm, ht, h.symm⟩
      · exact absurd h (by simp)
    · exact absurd h (by simp)

/-- C6 amended: the orchestrator computes price_to_ncavps =
last_price / ncav_per_share and margin_of_safety = 1 − price_to_ncavps
exactly when the last price is present and NCAV per share is present and
nonzero; when either is absent or NCAV per share is zero both outputs are
absent. A present-but-zero last price is accepted and yields ratio 0 and
margin 1 (the claim instead demanded absence there). -/
theorem C6_valuation_ratio_amended (core insider_blob : JVal)
    (last_price : Option ℚ) (fx : List (String × ℚ)) (now_dt : ℚ)
    (r : ValuationResult)
    (h : analyze_one_ticker core insider_blob last_price fx now_dt
      = Except.ok r) :
    (∀ p n, last_price = some p → r.ncav_per_share = some n → n ≠ 0 →
      r.price_to_ncavps = some (p / n)
        ∧ r.margin_of_safety = some (1 - p / n))
    ∧ ((last_price = none ∨ r.ncav_per_share = none ∨ r.ncav_per_share = some 0) →
      r.price_to_ncavps = none ∧ r.margin_of_safety = none) := by
  obtain ⟨u, -, -, -, rfl⟩ :=
    analyze_one_ticker_ok_inv core insider_blob last_price fx now_dt r h
  have hnps : (analyzeRecord core insider_blob last_price fx now_dt u).ncav_per_share
      = compute_ncav_ps_from_period (headOrNull (all_periods_sorted core))
          (_extract_shares_out (headOrNull (all_periods_sorted core))) := rfl
  have hptn : (analyzeRecord core insider_blob last_price fx now_dt u).price_to_ncavps
      = priceToNcavps last_price
          (compute_ncav_ps_from_period (headOrNull (all_periods_sorted core))
            (_extract_shares_out (headOrNull (all_periods_sorted core)))) := rfl
  have hmos : (analyzeRecord core insider_blob last_price fx now_dt u).margin_of_safety
      = ((analyzeRecord core insider_blob last_price fx now_dt u).price_to_ncavps).map
          (fun x => 1 - x) := rfl
  constructor
  · intro p n hp hn hne
    rw [hnps] at hn
    rw [hmos, hptn, hp, hn]
    simp [priceToNcavps, hne]
  · intro hcase
    rcases hcase with hp | hn | hn
    · rw [hmos, hptn, hp]
      cases compute_ncav_ps_from_period (headOrNull (all_periods_sorted core))
        (_extract_shares_out (headOrNull (all_periods_sorted core))) <;>
        simp [priceToNcavps]
    · rw [hnps] at hn
      rw [hmos, hptn, hn]
      cases last_price <;> simp [priceToNcavps]
    · rw [hnps] at hn
      rw [hmos, hptn, hn]
      cases last_price <;> simp [priceToNcavps]

/-- The single period of the concrete orchestrator core: dated today,
current assets 100, total liabilities 40, 10 shares out. -/
def c6p : JVal :=
  .obj [("date", .date 0), ("assets_current", .num 100),
        ("liab_total", .num 40), ("shares_out", .num 10)]

/-- Concrete core record for the orchestrator claims. -/
def c6core : JVal :=
  .obj [("meta", .obj [("ticker", .str "X")]), ("quarterly", .arr [c6p])]

/-- The merged timeline of the concrete core is its one period. -/
theorem c6_periods : all_periods_sorted c6core = [c6p] := by
  simp [all_periods_sorted, quarters_sorted, annuals_sorted, _get_period_list,
    _sort_periods_desc, periodSig, addBucket, List.insertionSort,
    List.orderedInsert, _extract_period_date, parse_date, JVal.getD,
    JVal.hasKey, JVal.jOr, JVal.jTruthy, c6core, c6p, List.find?]

/-- NCAV per share of the concrete period is 6. -/
theorem c6_ncavps :
    compute_ncav_ps_from_period c6p (_extract_shares_out c6p) = some 6 := by
  simp [compute_ncav_ps_from_period, ncav_total_native, _extract_shares_out,
    sharesFromContainer, get_balance_value, _extract_val, safe_float,
    JVal.getD, JVal.hasKey, JVal.jTruthy, c6p]
  norm_num

/-- The orchestrator succeeds on the concrete core for every price. -/
theorem c6_run (price : Option ℚ) :
    analyze_one_ticker c6core .null price [] 0
      = Except.ok (analyzeRecord c6core .null price [] 0 none) := by
  have h1 : ncav_total_native (headOrNull (all_periods_sorted c6core))
      = some 60 := by
    rw [c6_periods]
    simp [headOrNull, ncav_total_native, get_balance_value, _extract_val,
      safe_float, JVal.getD, JVal.hasKey, JVal.jTruthy, c6p]
    norm_num
  have h2 : listing_ccy_for_ticker c6core = none := by
    unfold listing_ccy_for_ticker
    rw [c6_periods]
    simp [c6core, JVal.getD, JVal.hasKey, JVal.jOr, JVal.jTruthy,
      detect_period_currency, c6p]
  unfold analyze_one_ticker
  rw [h1, h2]
  simp [convert_between, c6core, JVal.hasKey, JVal.getD]

/-- C6 counterexample: a present-but-zero last price is accepted by the
orchestrator (the source only tests `last_price is not None`), so with
NCAV per share 6 and last price 0 it returns price_to_ncavps = 0 and
margin_of_safety = 1, where the claim requires both to be absent. -/
theorem C6_counterexample :
    analyze_one_ticker c6core .null (some 0) [] 0
      = Except.ok (analyzeRecord c6core .null (some 0) [] 0 none)
    ∧ (analyzeRecord c6core .null (some 0) [] 0 none).ncav_per_share = some 6
    ∧ (analyzeRecord c6core .null (some 0) [] 0 none).price_to_ncavps = some 0
    ∧ (analyzeRecord c6core .null (some 0) [] 0 none).margin_of_safety = some 1 := by
  have hnps : (analyzeRecord c6core .null (some 0) [] 0 none).ncav_per_share
      = compute_ncav_ps_from_period (headOrNull (all_periods_sorted c6core))
          (_extract_shares_out (headOrNull (all_periods_sorted c6core))) := rfl
  have hval : compute_ncav_ps_from_period (headOrNull (all_periods_sorted c6core))
      (_extract_shares_out (headOrNull (all_periods_sorted c6core))) = some 6 := by
    rw [c6_periods]
    exact c6_ncavps
  have hptn : (analyzeRecord c6core .null (some 0) [] 0 none).price_to_ncavps
      = priceToNcavps (some 0)
          (compute_ncav_ps_from_period (headOrNull (all_periods_sorted c6core))
            (_extract_shares_out (headOrNull (all_periods_sorted c6core)))) := rfl
  have hmos : (analyzeRecord c6core .null (some 0) [] 0 none).margin_of_safety
      = ((analyzeRecord c6core .null (some 0) [] 0 none).price_to_ncavps).map
          (fun x => 1 - x) := rfl
  have hp0 : (analyzeRecord c6core .null (some 0) [] 0 none).price_to_ncavps
      = some 0 := by
    rw [hptn, hval]
    simp [priceToNcavps]
  refine ⟨c6_run (some 0), ?_, hp0, ?_⟩
  · rw [hnps, hval]
  · rw [hmos, hp0]
    simp

/-- Witness for the amended C6 theorem: on the concrete core with last
price 5 and NCAV per share 6, the amended rule yields ratio 5/6 and
margin 1 − 5/6. -/
theorem C6_valuation_ratio_amended_witness :
    (analyzeRecord c6core .null (some 5) [] 0 none).price_to_ncavps
      = some (5 / 6)
    ∧ (analyzeRecord c6core .null (some 5) [] 0 none).margin_of_safety
      = some (1 - 5 / 6) := by
  have hn : (analyzeRecord c6core .null (some 5) [] 0 none).ncav_per_share
      = some 6 := by
    have hnps : (analyzeRecord c6core .null (some 5) [] 0 none).ncav_per_share
        = compute_ncav_ps_from_period (headOrNull (all_periods_sorted c6core))
            (_extract_shares_out (headOrNull (all_periods_sorted c6core))) := rfl
    rw [hnps, c6_periods]
    exact c6_ncavps
  exact (C6_valuation_ratio_amended c6core .null (some 5) [] 0 _
    (c6_run (some 5))).1 5 6 rfl hn (by norm_num)

/-- The "Issued >8% in last 12m" red flag appears exactly when the 1-year
dilution input is present and exceeds 0.08. -/
theorem issued12_mem_iff (p cr de nq nh ny dq dh dy m1 m3 b3 : Option ℚ)
    (o : Bool) :
    "Issued >8% in last 12m"
      ∈ (classify_flags p cr de nq nh ny dq dh dy m1 m3 b3 o).2
    ↔ ∃ m, m1 = some m ∧ m > 8/100 := by
  cases o <;>
    simp [classify_flags, mem_flagIf, List.mem_append]

/-- The "Issued >20% in last 3y" red flag appears exactly when the 3-year
issuance input is present and exceeds 0.20. -/
theorem issued3y_mem_iff (p cr de nq nh ny dq dh dy m1 m3 b3 : Option ℚ)
    (o : Bool) :
    "Issued >20% in last 3y"
      ∈ (classify_flags p cr de nq nh ny dq dh dy m1 m3 b3 o).2
    ↔ ∃ m, m3 = some m ∧ m > 2/10 := by
  cases o <;>
    simp [classify_flags, mem_flagIf, List.mem_append]

/-- Newest period of the dilution core: dated today, 110 shares out. -/
def c10p0 : JVal :=
  .obj [("date", .date 0), ("assets_current", .num 100),
        ("liab_total", .num 40), ("shares_out", .num 110)]

/-- Older period of the dilution core: 400 days ago, 100 shares out. -/
def c10p1 : JVal :=
  .obj [("date", .date (-400)), ("assets_current", .num 100),
        ("liab_total", .num 40), ("shares_out", .num 100)]

/-- Concrete core whose only share-count move is +10% across a 400-day
gap: inside the 3-year window, outside the 1-year one. -/
def c10core : JVal :=
  .obj [("meta", .obj [("ticker", .str "X")]),
        ("quarterly", .arr [c10p0, c10p1])]

/-- The merged timeline of the dilution core, newest first. -/
theorem c10_periods : all_periods_sorted c10core = [c10p0, c10p1] := by
  simp [all_periods_sorted, quarters_sorted, annuals_sorted, _get_period_list,
    _sort_periods_desc, periodSig, addBucket, List.insertionSort,
    List.orderedInsert, _extract_period_date, parse_date, JVal.getD,
    JVal.hasKey, JVal.jOr, JVal.jTruthy, c10core, c10p0, c10p1, List.find?]

/-- Windowed extrema of the dilution core over 3 years: the single
400-day pair contributes +10%. -/
theorem c10_max3y :
    max_change_within_3y [c10p0, c10p1]
      = DilutionWindowStats.mk (some (1/10)) (some (1/10)) := by
  simp [max_change_within_3y, _max_change_within_days, dilOuter, dilInner,
    updStats, dayGap, _pct_change_shares, _shares_out, pct_change,
    safe_float, _extract_period_date, parse_date, JVal.getD, JVal.jOr,
    JVal.jTruthy, c10p0, c10p1]
  norm_num

/-- Windowed extrema of the dilution core over 1 year: the 400-day pair is
out of window, so nothing is recorded. -/
theorem c10_max1y : max_dilution_within_1y [c10p0, c10p1] = none := by
  simp [max_dilution_within_1y, _max_change_within_days, dilOuter, dilInner,
    updStats, dayGap, _pct_change_shares, _shares_out, pct_change,
    safe_float, _extract_period_date, parse_date, JVal.getD, JVal.jOr,
    JVal.jTruthy, c10p0, c10p1]

/-- The orchestrator succeeds on the dilution core. -/
theorem c10_run :
    analyze_one_ticker c10core .null none [] 0
      = Except.ok (analyzeRecord c10core .null none [] 0 none) := by
  have h1 : ncav_total_native (headOrNull (all_periods_sorted c10core))
      = some 60 := by
    rw [c10_periods]
    simp [headOrNull, ncav_total_native, get_balance_value, _extract_val,
      safe_float, JVal.getD, JVal.hasKey, JVal.jTruthy, c10p0]
    norm_num
  have h2 : listing_ccy_for_ticker c10core = none := by
    unfold listing_ccy_for_ticker
    rw [c10_periods]
    simp [c10core, JVal.getD, JVal.hasKey, JVal.jOr, JVal.jTruthy,
      detect_period_currency, c10p0]
  unfold analyze_one_ticker
  rw [h1, h2]
  simp [convert_between, c10core, JVal.hasKey, JVal.getD]

set_option maxHeartbeats 1600000 in
/-- The red flags of an orchestrator record are classify_flags applied to
the record's own stored inputs. -/
theorem analyzeRecord_red_flags (core blob : JVal) (price : Option ℚ)
    (fx : List (String × ℚ)) (now : ℚ) (u : Option ℚ) :
    (analyzeRecord core blob price fx now u).red_flags
      = (classify_flags
          (analyzeRecord core blob price fx now u).price_to_ncavps
          (analyzeRecord core blob price fx now u).current_ratio
          (analyzeRecord core blob price fx now u).debt_to_equity
          (analyzeRecord core blob price fx now u).ncav_change_qoq
          (analyzeRecord core blob price fx now u).ncav_change_hoh
          (analyzeRecord core blob price fx now u).ncav_change_yoy
          (analyzeRecord core blob price fx now u).dilution_qoq
          (analyzeRecord core blob price fx now u).dilution_hoh
          (analyzeRecord core blob price fx now u).dilution_yoy
          (analyzeRecord core blob price fx now u).max_dilution_1y
          (analyzeRecord core blob price fx now u).max_issue_3y
          (analyzeRecord core blob price fx now u).max_buyback_3y
          (analyzeRecord core blob price fx now u).is_outdated).2 := rfl

/-- C10: the convenience boolean has_recent_dilution is true exactly when
max_issue_3y is present and exceeds 0.08 — a window/threshold pairing
matching neither dilution red flag — and on the concrete 400-day +10%
dilution core the boolean is true while red_flags carries neither
"Issued >8% in last 12m" nor "Issued >20% in last 3y". -/
theorem C10_recent_dilution_mirror :
    (∀ (core blob : JVal) (price : Option ℚ) (fx : List (String × ℚ))
       (now : ℚ) (r : ValuationResult),
      analyze_one_ticker core blob price fx now = Except.ok r →
      (r.has_recent_dilution = true ↔ ∃ m, r.max_issue_3y = some m ∧ m > 8/100))
    ∧ (analyze_one_ticker c10core .null none [] 0
        = Except.ok (analyzeRecord c10core .null none [] 0 none)
      ∧ (analyzeRecord c10core .null none [] 0 none).has_recent_dilution = true
      ∧ "Issued >8% in last 12m"
          ∉ (analyzeRecord c10core .null none [] 0 none).red_flags
      ∧ "Issued >20% in last 3y"
          ∉ (analyzeRecord c10core .null none [] 0 none).red_flags) := by
  have hmi : (analyzeRecord c10core .null none [] 0 none).max_issue_3y
      = some (1/10) := by
    have h0 : (analyzeRecord c10core .null none [] 0 none).max_issue_3y
        = (max_change_within_3y (all_periods_sorted c10core)).max_issue := rfl
    rw [h0, c10_periods, c10_max3y]
  have hm1 : (analyzeRecord c10core .null none [] 0 none).max_dilution_1y
      = none := by
    have h0 : (analyzeRecord c10core .null none [] 0 none).max_dilution_1y
        = max_dilution_within_1y (all_periods_sorted c10core) := rfl
    rw [h0, c10_periods, c10_max1y]
  constructor
  · intro core blob price fx now r h
    obtain ⟨u, -, -, -, rfl⟩ :=
      analyze_one_ticker_ok_inv core blob price fx now r h
    have h1 : (analyzeRecord core blob price fx now u).has_recent_dilution
        = optExceeds (max_change_within_3y (all_periods_sorted core)).max_issue
            (8/100) := rfl
    have h2 : (analyzeRecord core blob price fx now u).max_issue_3y
        = (max_change_within_3y (all_periods_sorted core)).max_issue := rfl
    rw [h1, h2]
    cases (max_change_within_3y (all_periods_sorted core)).max_issue with
    | none => simp [optExceeds]
    | some m => simp [optExceeds]
  · refine ⟨c10_run, ?_, ?_, ?_⟩
    · have h1 : (analyzeRecord c10core .null none [] 0 none).has_recent_dilution
          = optExceeds (max_change_within_3y (all_periods_sorted c10core)).max_issue
              (8/100) := rfl
      rw [h1, c10_periods, c10_max3y]
      simp [optExceeds]
      norm_num
    · rw [analyzeRecord_red_flags, issued12_mem_iff, hm1]
      simp
    · rw [analyzeRecord_red_flags, issued3y_mem_iff, hmi]
      rintro ⟨m, hm, hgt⟩
      injection hm with hm
      subst hm
      norm_num at hgt

/-- Witness for C10 at the concrete dilution core: the iff instantiated
through a successful run. -/
theorem C10_recent_dilution_mirror_witness :
    (analyzeRecord c10core .null none [] 0 none).has_recent_dilution = true
    ↔ ∃ m, (analyzeRecord c10core .null none [] 0 none).max_issue_3y = some m
        ∧ m > 8/100 :=
  C10_recent_dilution_mirror.1 c10core .null none [] 0 _ c10_run

/-- The max_issue component of one stats update. -/
def optMaxStep (m : Option ℚ) (c : ℚ) : Option ℚ :=
  match m with
  | none => some c
  | some m0 => if c > m0 then some c else some m0

/-- The max_buyback component of one stats update. -/
def optMinStep (m : Option ℚ) (c : ℚ) : Option ℚ :=
  match m with
  | none => some c
  | some m0 => if c < m0 then some c else some m0

/-- The two components of the running-stats fold evolve independently. -/
theorem foldl_updStats_components (cs : List ℚ) (a b : Option ℚ) :
    cs.foldl updStats ⟨a, b⟩
      = ⟨cs.foldl optMaxStep a, cs.foldl optMinStep b⟩ := by
  induction cs generalizing a b with
  | nil => rfl
  | cons c cs ih =>
    rw [List.foldl_cons, List.foldl_cons, List.foldl_cons,
      show updStats ⟨a, b⟩ c = ⟨optMaxStep a c, optMinStep b c⟩ from rfl]
    exact ih _ _

/-- Folding the max step from a known seed computes the list maximum over
the seed. -/
theorem foldl_optMaxStep_some (cs : List ℚ) (a : ℚ) :
    cs.foldl optMaxStep (some a) = some (cs.foldl max a) := by
  induction cs generalizing a with
  | nil => rfl
  | cons c cs ih =>
    rw [List.foldl_cons, List.foldl_cons]
    have h : optMaxStep (some a) c = some (max a c) := by
      rcases lt_or_le a c with h | h
      · simp [optMaxStep, h, max_eq_right (le_of_lt h)]
      · simp [optMaxStep, not_lt.mpr h, max_eq_left h]
    rw [h, ih]

/-- Folding the min step from a known seed computes the list minimum over
the seed. -/
theorem foldl_optMinStep_some (cs : List ℚ) (a : ℚ) :
    cs.foldl optMinStep (some a) = some (cs.foldl min a) := by
  induction cs generalizing a with
  | nil => rfl
  | cons c cs ih =>
    rw [List.foldl_cons, List.foldl_cons]
    have h : optMinStep (some a) c = some (min a c) := by
      rcases lt_or_le c a with h | h
      · simp [optMinStep, h, min_eq_right (le_of_lt h)]
      · simp [optMinStep, not_lt.mpr h, min_eq_left h]
    rw [h, ih]

/-- The folded maximum bounds the seed and every element, and is one of
them. -/
theorem foldl_max_spec (cs : List ℚ) (a : ℚ) :
    a ≤ cs.foldl max a ∧ (∀ x ∈ cs, x ≤ cs.foldl max a)
    ∧ (cs.foldl max a = a ∨ cs.foldl max a ∈ cs) := by
  induction cs generalizing a with
  | nil => simp
  | cons c cs ih =>
    obtain ⟨h1, h2, h3⟩ := ih (max a c)
    rw [List.foldl_cons]
    refine ⟨le_trans (le_max_left a c) h1, ?_, ?_⟩
    · intro x hx
      rcases List.mem_cons.mp hx with rfl | hx
      · exact le_trans (le_max_right a x) h1
      · exact h2 x hx
    · rcases h3 with h | h
      · rcases max_choice a c with hm | hm
        · left
          rw [h, hm]
        · right
          rw [h, hm]
          exact List.mem_cons_self c cs
      · exact Or.inr (List.mem_cons_of_mem c h)

/-- The folded minimum bounds the seed and every element, and is one of
them. -/
theorem foldl_min_spec (cs : List ℚ) (a : ℚ) :
    cs.foldl min a ≤ a ∧ (∀ x ∈ cs, cs.foldl min a ≤ x)
    ∧ (cs.foldl min a = a ∨ cs.foldl min a ∈ cs) := by
  induction cs generalizing a with
  | nil => simp
  | cons c cs ih =>
    obtain ⟨h1, h2, h3⟩ := ih (min a c)
    rw [List.foldl_cons]
    refine ⟨le_trans h1 (min_le_left a c), ?_, ?_⟩
    · intro x hx
      rcases List.mem_cons.mp hx with rfl | hx
      · exact le_trans h1 (min_le_right a x)
      · exact h2 x hx
    · rcases h3 with h | h
      · rcases min_choice a c with hm | hm
        · left
          rw [h, hm]
        · right
          rw [h, hm]
          exact List.mem_cons_self c cs
      · exact Or.inr (List.mem_cons_of_mem c h)

/-- Full characterization of the running maximum from an empty seed. -/
theorem foldl_optMaxStep_none_spec (cs : List ℚ) :
    (cs.foldl optMaxStep none = none ↔ cs = [])
    ∧ (∀ m, cs.foldl optMaxStep none = some m ↔ (m ∈ cs ∧ ∀ x ∈ cs, x ≤ m)) := by
  cases cs with
  | nil => simp
  | cons c cs =>
    rw [List.foldl_cons, show optMaxStep none c = some c from rfl,
      foldl_optMaxStep_some]
    obtain ⟨h1, h2, h3⟩ := foldl_max_spec cs c
    constructor
    · simp
    · intro m
      constructor
      · intro h
        injection h with h
        subst h
        refine ⟨?_, ?_⟩
        · rcases h3 with h | h
          · rw [h]
            exact List.mem_cons_self c cs
          · exact List.mem_cons_of_mem c h
        · intro x hx
          rcases List.mem_cons.mp hx with rfl | hx
          · exact h1
          · exact h2 x hx
      · rintro ⟨hm, hall⟩
        have hle : cs.foldl max c ≤ m := by
          rcases h3 with h | h
          · rw [h]
            exact hall c (List.mem_cons_self c cs)
          · exact hall _ (List.mem_cons_of_mem c h)
        have hge : m ≤ cs.foldl max c := by
          rcases List.mem_cons.mp hm with rfl | hm
          · exact h1
          · exact h2 m hm
        rw [le_antisymm hle hge]

/-- Full characterization of the running minimum from an empty seed. -/
theorem foldl_optMinStep_none_spec (cs : List ℚ) :
    (cs.foldl optMinStep none = none ↔ cs = [])
    ∧ (∀ m, cs.foldl optMinStep none = some m ↔ (m ∈ cs ∧ ∀ x ∈ cs, m ≤ x)) := by
  cases cs with
  | nil => simp
  | cons c cs =>
    rw [List.foldl_cons, show optMinStep none c = some c from rfl,
      foldl_optMinStep_some]
    obtain ⟨h1, h2, h3⟩ := foldl_min_spec cs c
    constructor
    · simp
    · intro m
      constructor
      · intro h
        injection h with h
        subst h
        refine ⟨?_, ?_⟩
        · rcases h3 with h | h
          · rw [h]
            exact List.mem_cons_self c cs
          · exact List.mem_cons_of_mem c h
        · intro x hx
          rcases List.mem_cons.mp hx with rfl | hx
          · exact h1
          · exact h2 x hx
      · rintro ⟨hm, hall⟩
        have hge : cs.foldl min c ≤ m := by
          rcases List.mem_cons.mp hm with rfl | hm
          · exact h1
          · exact h2 m hm
        have hle : m ≤ cs.foldl min c := by
          rcases h3 with h | h
          · rw [h]
            exact hall c (List.mem_cons_self c cs)
          · exact hall _ (List.mem_cons_of_mem c h)
        rw [le_antisymm hge hle]

/-- The inner pair loop is the stats fold over the qualifying changes of
the fixed newer snapshot. -/
theorem dilInner_eq (pNew : JVal) (dNew : ℚ) (w : ℤ)
    (rest : List (JVal × ℚ)) (s : DilutionWindowStats) :
    dilInner pNew dNew w rest s
      = (rest.filterMap (fun qd =>
          if 0 ≤ dayGap dNew qd.2 ∧ dayGap dNew qd.2 ≤ w
          then _pct_change_shares pNew qd.1 else none)).foldl updStats s := by
  induction rest generalizing s with
  | nil => rfl
  | cons qd rest ih =>
    obtain ⟨pOld, dOld⟩ := qd
    by_cases h1 : dayGap dNew dOld < 0
    · have h1n : ¬ (0 ≤ dayGap dNew dOld ∧ dayGap dNew dOld ≤ w) := by
        rintro ⟨h, -⟩
        exact absurd h (not_le.mpr h1)
      simp only [dilInner, if_pos h1, List.filterMap_cons, if_neg h1n]
      exact ih s
    · by_cases h2 : dayGap dNew dOld > w
      · have h2n : ¬ (0 ≤ dayGap dNew dOld ∧ dayGap dNew dOld ≤ w) := by
          rintro ⟨-, h⟩
          exact absurd h (not_le.mpr h2)
        simp only [dilInner, if_neg h1, if_pos h2, List.filterMap_cons, if_neg h2n]
        exact ih s
      · have hin : 0 ≤ dayGap dNew dOld ∧ dayGap dNew dOld ≤ w :=
          ⟨not_lt.mp h1, not_lt.mp h2⟩
        cases hch : _pct_change_shares pNew pOld with
        | none =>
          simp only [dilInner, if_neg h1, if_neg h2, hch, List.filterMap_cons,
            if_pos hin]
          exact ih s
        | some chg =>
          simp only [dilInner, if_neg h1, if_neg h2, hch, List.filterMap_cons,
            if_pos hin]
          rw [List.foldl_cons]
          exact ih (updStats s chg)

/-- The outer pair loop is the stats fold over all qualifying changes. -/
theorem dilOuter_eq (w : ℤ) (l : List (JVal × ℚ)) (s : DilutionWindowStats) :
    dilOuter w l s = (qualChanges w l).foldl updStats s := by
  induction l generalizing s with
  | nil => rfl
  | cons pd rest ih =>
    obtain ⟨p, d⟩ := pd
    rw [show dilOuter w ((p, d) :: rest) s
        = dilOuter w rest (dilInner p d w rest s) from rfl,
      ih, dilInner_eq, show qualChanges w ((p, d) :: rest)
        = rest.filterMap (fun qd =>
            if 0 ≤ dayGap d qd.2 ∧ dayGap d qd.2 ≤ w
            then _pct_change_shares p qd.1 else none) ++ qualChanges w rest
        from rfl,
      List.foldl_append]

/-- The windowed extrema are exactly the running maximum and minimum of
the qualifying pair changes. -/
theorem maxChange_eq_fold (periods : List JVal) (w : ℤ) :
    _max_change_within_days periods w
      = ⟨(qualChanges w (datedOf periods)).foldl optMaxStep none,
         (qualChanges w (datedOf periods)).foldl optMinStep none⟩ := by
  rw [show _max_change_within_days periods w
      = dilOuter w (datedOf periods) ⟨none, none⟩ from rfl,
    dilOuter_eq, foldl_updStats_components]

/-- Newest period of the original C5 example list: 100 shares today. -/
def c5x0 : JVal := .obj [("date", .date 0), ("shares_out", .num 100)]

/-- Middle period of the original C5 example list: 110 shares 30 days
ago. -/
def c5x1 : JVal := .obj [("date", .date (-30)), ("shares_out", .num 110)]

/-- Oldest period of the C5 example lists: 95 shares 400 days ago. -/
def c5x2 : JVal := .obj [("date", .date (-400)), ("shares_out", .num 95)]

/-- Newest period of the amended C5 example list: 110 shares today. -/
def c5y0 : JVal := .obj [("date", .date 0), ("shares_out", .num 110)]

/-- Middle period of the amended C5 example list: 100 shares 30 days
ago. -/
def c5y1 : JVal := .obj [("date", .date (-30)), ("shares_out", .num 100)]

/-- C5 counterexample: reading the claim's series [100, 110, 95] as the
stated newest-first period list, the only in-window pair is the 30-day
110 → 100 move, so max_issue is −1/11 ≈ −0.091 — a negative change, not
the claimed ≈ +0.10. -/
theorem C5_counterexample :
    (_max_change_within_days [c5x0, c5x1, c5x2] 365).max_issue
      = some (-(1/11))
    ∧ (-(1/11) : ℚ) < 0 := by
  constructor
  · simp [_max_change_within_days, dilOuter, dilInner, updStats, dayGap,
      _pct_change_shares, _shares_out, pct_change, safe_float,
      _extract_period_date, parse_date, JVal.getD, JVal.jOr, JVal.jTruthy,
      c5x0, c5x1, c5x2]
    norm_num
  · norm_num

/-- C5 amended: for every period list and window, max_issue is exactly
the maximum and max_buyback exactly the minimum of the share-count
pct_change over every (newer i, older j > i) pair of dated snapshots
whose day gap lies in [0, window_days] — adjacent or not — and absent
exactly when no such pair yields a defined change; the 1y/3y wrappers use
windows 365 and 1095; and on shares [110, 100, 95] at day offsets
[0, 30, 400] (newest first) with window 365, max_issue = +0.10 from the
30-day 100 → 110 pair, the 400-day-gap pairs being excluded. -/
theorem C5_windowed_extrema :
    (∀ (periods : List JVal) (w : ℤ) (m : ℚ),
      (_max_change_within_days periods w).max_issue = some m
      ↔ (m ∈ qualChanges w (datedOf periods)
          ∧ ∀ x ∈ qualChanges w (datedOf periods), x ≤ m))
    ∧ (∀ (periods : List JVal) (w : ℤ),
      (_max_change_within_days periods w).max_issue = none
      ↔ qualChanges w (datedOf periods) = [])
    ∧ (∀ (periods : List JVal) (w : ℤ) (m : ℚ),
      (_max_change_within_days periods w).max_buyback = some m
      ↔ (m ∈ qualChanges w (datedOf periods)
          ∧ ∀ x ∈ qualChanges w (datedOf periods), m ≤ x))
    ∧ (∀ (periods : List JVal) (w : ℤ),
      (_max_change_within_days periods w).max_buyback = none
      ↔ qualChanges w (datedOf periods) = [])
    ∧ (∀ periods, max_dilution_within_1y periods
        = (_max_change_within_days periods 365).max_issue)
    ∧ (∀ periods, max_change_within_3y periods
        = _max_change_within_days periods 1095)
    ∧ (_max_change_within_days [c5y0, c5y1, c5x2] 365).max_issue
        = some (1/10) := by
  refine ⟨?_, ?_, ?_, ?_, fun _ => rfl, fun _ => rfl, ?_⟩
  · intro periods w m
    rw [maxChange_eq_fold]
    exact (foldl_optMaxStep_none_spec _).2 m
  · intro periods w
    rw [maxChange_eq_fold]
    exact (foldl_optMaxStep_none_spec _).1
  · intro periods w m
    rw [maxChange_eq_fold]
    exact (foldl_optMinStep_none_spec _).2 m
  · intro periods w
    rw [maxChange_eq_fold]
    exact (foldl_optMinStep_none_spec _).1
  · simp [_max_change_within_days, dilOuter, dilInner, updStats, dayGap,
      _pct_change_shares, _shares_out, pct_change, safe_float,
      _extract_period_date, parse_date, JVal.getD, JVal.jOr, JVal.jTruthy,
      c5y0, c5y1, c5x2]
    norm_num

/-- Witness for C5 at the amended concrete list and window 365. -/
theorem C5_windowed_extrema_witness :
    (_max_change_within_days [c5y0, c5y1, c5x2] 365).max_issue = some (1/10)
    ↔ ((1/10 : ℚ) ∈ qualChanges 365 (datedOf [c5y0, c5y1, c5x2])
        ∧ ∀ x ∈ qualChanges 365 (datedOf [c5y0, c5y1, c5x2]), x ≤ 1/10) :=
  C5_windowed_extrema.1 [c5y0, c5y1, c5x2] 365 (1/10)

/-- An element of the dated-pair list of _sort_periods_desc carries its
own extracted date. -/
theorem mem_withDates {periods : List JVal} {x : ℚ × JVal}
    (h : x ∈ periods.filterMap
      (fun p => (_extract_period_date p).map (fun d => (d, p)))) :
    _extract_period_date x.2 = some x.1 := by
  obtain ⟨p, -, hp⟩ := List.mem_filterMap.mp h
  cases he : _extract_period_date p with
  | none => rw [he] at hp; exact absurd hp (by simp)
  | some d =>
    rw [he] at hp
    simp only [Option.map_some'] at hp
    cases hp
    exact he

/-- When every input period is dated, projecting the dated-pair list back
to periods returns the input list. -/
theorem withDates_map_snd {periods : List JVal}
    (h : ∀ p ∈ periods, (_extract_period_date p).isSome = true) :
    (periods.filterMap
      (fun p => (_extract_period_date p).map (fun d => (d, p)))).map
        (fun t => t.2) = periods := by
  induction periods with
  | nil => rfl
  | cons p l ih =>
    have hp := h p (List.mem_cons_self p l)
    cases he : _extract_period_date p with
    | none => rw [he] at hp; exact absurd hp (by simp)
    | some d =>
      rw [List.filterMap_cons, he]
      simp only [Option.map_some', List.map_cons]
      rw [ih (fun q hq => h q (List.mem_cons_of_mem p hq))]

/-- _sort_periods_desc permutes the dated members of its input; when all
are dated it permutes the whole input. -/
theorem sort_periods_desc_perm {periods : List JVal}
    (h : ∀ p ∈ periods, (_extract_period_date p).isSome = true) :
    (_sort_periods_desc periods).Perm periods := by
  unfold _sort_periods_desc
  have hperm := (List.perm_insertionSort
    (fun (a b : ℚ × JVal) => b.1 ≤ a.1)
    (periods.filterMap
      (fun p => (_extract_period_date p).map (fun d => (d, p))))).map
    (fun t : ℚ × JVal => t.2)
  rw [withDates_map_snd h] at hperm
  exact hperm

/-- Bucket filling only appends entries. -/
theorem bucket_mem_preserved (l : List JVal) (bs : List (ℤ × JVal))
    (e : ℤ × JVal) (h : e ∈ bs) : e ∈ l.foldl addBucket bs := by
  induction l generalizing bs with
  | nil => exact h
  | cons p l ih =>
    apply ih
    unfold addBucket
    cases periodSig p with
    | none => exact h
    | some s =>
      by_cases hc : bs.any (fun x => x.1 == s)
      · simpa [hc] using h
      · simp only [hc]
        exact List.mem_append_left _ h

/-- Every bucket entry was in the accumulator or stems from the folded
list. -/
theorem bucket_entry_src (l : List JVal) (bs : List (ℤ × JVal))
    (e : ℤ × JVal) (h : e ∈ l.foldl addBucket bs) : e ∈ bs ∨ e.2 ∈ l := by
  induction l generalizing bs with
  | nil => exact Or.inl h
  | cons p l ih =>
    rcases ih (addBucket bs p) h with hin | hin
    · unfold addBucket at hin
      cases hs : periodSig p with
      | none =>
        rw [hs] at hin
        exact Or.inl hin
      | some s =>
        rw [hs] at hin
        have hin2 : e ∈ (if (bs.any fun x => x.1 == s) = true then bs
            else bs ++ [(s, p)]) := hin
        by_cases hc : (bs.any fun x => x.1 == s) = true
        · rw [if_pos hc] at hin2
          exact Or.inl hin2
        · rw [if_neg hc] at hin2
          rcases List.mem_append.mp hin2 with hin3 | hin3
          · exact Or.inl hin3
          · simp only [List.mem_singleton] at hin3
            subst hin3
            exact Or.inr (List.mem_cons_self p l)
    · exact Or.inr (List.mem_cons_of_mem p hin)

/-- Every bucket entry holds its value's date signature as its key. -/
theorem bucket_entry_sig (l : List JVal) (bs : List (ℤ × JVal))
    (hbs : ∀ e ∈ bs, periodSig e.2 = some e.1) :
    ∀ e ∈ l.foldl addBucket bs, periodSig e.2 = some e.1 := by
  induction l generalizing bs with
  | nil => exact hbs
  | cons p l ih =>
    apply ih
    intro e he
    unfold addBucket at he
    cases hs : periodSig p with
    | none =>
      rw [hs] at he
      exact hbs e he
    | some s =>
      rw [hs] at he
      have he2 : e ∈ (if (bs.any fun x => x.1 == s) = true then bs
          else bs ++ [(s, p)]) := he
      by_cases hc : (bs.any fun x => x.1 == s) = true
      · rw [if_pos hc] at he2
        exact hbs e he2
      · rw [if_neg hc] at he2
        rcases List.mem_append.mp he2 with he3 | he3
        · exact hbs e he3
        · simp only [List.mem_singleton] at he3
          subst he3
          exact hs

/-- Bucket filling preserves key distinctness. -/
theorem bucket_keys_nodup (l : List JVal) (bs : List (ℤ × JVal))
    (hbs : (bs.map (fun e => e.1)).Nodup) :
    ((l.foldl addBucket bs).map (fun e => e.1)).Nodup := by
  induction l generalizing bs with
  | nil => exact hbs
  | cons p l ih =>
    apply ih
    unfold addBucket
    cases hs : periodSig p with
    | none => exact hbs
    | some s =>
      show (List.map (fun e => e.1)
        (if (bs.any fun x => x.1 == s) = true then bs
         else bs ++ [(s, p)])).Nodup
      by_cases hc : (bs.any fun x => x.1 == s) = true
      · rw [if_pos hc]
        exact hbs
      · rw [if_neg hc]
        rw [List.map_append, List.map_singleton]
        rw [List.nodup_append]
        refine ⟨hbs, List.nodup_singleton s, ?_⟩
        intro k hk
        simp only [List.mem_singleton]
        intro hks
        subst hks
        obtain ⟨e, he, hke⟩ := List.mem_map.mp hk
        exact hc (List.any_eq_true.mpr ⟨e, he, by simp [hke]⟩)

/-- A key appears in the filled buckets exactly when it was present, or
some folded period carries it as date signature. -/
theorem bucket_keys_iff (l : List JVal) (bs : List (ℤ × JVal)) (s : ℤ) :
    (∃ e ∈ l.foldl addBucket bs, e.1 = s)
    ↔ (∃ e ∈ bs, e.1 = s) ∨ (∃ p ∈ l, periodSig p = some s) := by
  induction l generalizing bs with
  | nil => simp
  | cons p l ih =>
    rw [List.foldl_cons, ih]
    have hstep : (∃ e ∈ addBucket bs p, e.1 = s)
        ↔ (∃ e ∈ bs, e.1 = s) ∨ periodSig p = some s := by
      unfold addBucket
      cases hs : periodSig p with
      | none =>
        constructor
        · exact Or.inl
        · rintro (h | h)
          · exact h
          · exact absurd h (by simp)
      | some s0 =>
        show (∃ e ∈ (if (bs.any fun x => x.1 == s0) = true then bs
            else bs ++ [(s0, p)]), e.1 = s) ↔ _
        by_cases hc : (bs.any fun x => x.1 == s0) = true
        · rw [if_pos hc]
          constructor
          · exact Or.inl
          · rintro (h | h)
            · exact h
            · injection h with h
              subst h
              obtain ⟨e, he, hke⟩ := List.any_eq_true.mp hc
              exact ⟨e, he, by simpa using hke⟩
        · rw [if_neg hc]
          constructor
          · rintro ⟨e, he, hke⟩
            rcases List.mem_append.mp he with he | he
            · exact Or.inl ⟨e, he, hke⟩
            · simp only [List.mem_singleton] at he
              subst he
              exact Or.inr (by rw [← hke])
          · rintro (⟨e, he, hke⟩ | h)
            · exact ⟨e, List.mem_append_left _ he, hke⟩
            · injection h with h
              subst h
              exact ⟨(s0, p), List.mem_append_right _ (List.mem_singleton.mpr rfl),
                rfl⟩
    rw [hstep]
    constructor
    · rintro ((h | h) | h)
      · exact Or.inl h
      · exact Or.inr ⟨p, List.mem_cons_self p l, h⟩
      · obtain ⟨q, hq, hqs⟩ := h
        exact Or.inr ⟨q, List.mem_cons_of_mem p hq, hqs⟩
    · rintro (h | ⟨q, hq, hqs⟩)
      · exact Or.inl (Or.inl h)
      · rcases List.mem_cons.mp hq with rfl | hq
        · exact Or.inl (Or.inr hqs)
        · exact Or.inr ⟨q, hq, hqs⟩

/-- In a key-distinct association list, entries sharing a key are equal. -/
theorem nodup_keys_unique {bs : List (ℤ × JVal)}
    (h : (bs.map (fun e => e.1)).Nodup) :
    ∀ e ∈ bs, ∀ e2 ∈ bs, e.1 = e2.1 → e = e2 := by
  induction bs with
  | nil => intro e he; exact absurd he (by simp)
  | cons b bs ih =>
    rw [List.map_cons, List.nodup_cons] at h
    intro e he e2 he2 hk
    rcases List.mem_cons.mp he with he1 | he1 <;>
      rcases List.mem_cons.mp he2 with he22 | he22
    · rw [he1, he22]
    · exfalso
      apply h.1
      rw [he1] at hk
      exact List.mem_map.mpr ⟨e2, he22, hk.symm⟩
    · exfalso
      apply h.1
      rw [he22] at hk
      exact List.mem_map.mpr ⟨e, he1, hk⟩
    · exact ih h.2 e he1 e2 he22 hk

/-- The sorted dated-pair list of _sort_periods_desc is descending in its
date component. -/
theorem sort_periods_pairwise (l : List (ℚ × JVal)) :
    List.Pairwise (fun x y : ℚ × JVal => y.1 ≤ x.1)
      (l.insertionSort (fun a b => b.1 ≤ a.1)) := by
  haveI : IsTotal (ℚ × JVal) (fun a b => b.1 ≤ a.1) :=
    ⟨fun a b => le_total b.1 a.1⟩
  haveI : IsTrans (ℚ × JVal) (fun a b => b.1 ≤ a.1) :=
    ⟨fun _ _ _ hab hbc => le_trans hbc hab⟩
  exact List.sorted_insertionSort _ l

/-- C4: for every core record, the merged timeline consists of dated
periods only, is strictly decreasing by period date, has pairwise
distinct date signatures, and keeps a quarterly period whenever any
quarterly period carries the signature. -/
theorem C4_timeline_invariants (core : JVal) :
    (∀ p ∈ all_periods_sorted core, (_extract_period_date p).isSome = true)
    ∧ List.Pairwise (fun p q =>
        ∀ dp dq, _extract_period_date p = some dp →
          _extract_period_date q = some dq → dq < dp) (all_periods_sorted core)
    ∧ ((all_periods_sorted core).map periodSig).Nodup
    ∧ (∀ p ∈ all_periods_sorted core, ∀ s, periodSig p = some s →
        (∃ pq ∈ quarters_sorted core, periodSig pq = some s) →
        p ∈ quarters_sorted core) := by
  set B := ((quarters_sorted core ++ annuals_sorted core).foldl addBucket [])
    with hB
  have hBsig : ∀ e ∈ B, periodSig e.2 = some e.1 :=
    bucket_entry_sig _ [] (by simp)
  have hBnodup : (B.map (fun e => e.1)).Nodup :=
    bucket_keys_nodup _ [] (by simp)
  set Bv := B.map (fun e => e.2) with hBv
  have hdates : ∀ p ∈ Bv, (_extract_period_date p).isSome = true := by
    intro p hp
    obtain ⟨e, he, rfl⟩ := List.mem_map.mp hp
    have := hBsig e he
    unfold periodSig at this
    cases hx : _extract_period_date e.2 with
    | none => rw [hx] at this; exact absurd this (by simp)
    | some d => simp
  have hres : all_periods_sorted core = _sort_periods_desc Bv := rfl
  have hperm : (all_periods_sorted core).Perm Bv := by
    rw [hres]
    exact sort_periods_desc_perm hdates
  have hsigmap : Bv.map periodSig = (B.map (fun e => e.1)).map some := by
    rw [hBv, List.map_map, List.map_map]
    exact List.map_congr_left (fun e he => by simpa using hBsig e he)
  have hsignodup : ((all_periods_sorted core).map periodSig).Nodup := by
    have h1 : (Bv.map periodSig).Nodup := by
      rw [hsigmap]
      exact hBnodup.map (Option.some_injective ℤ)
    exact ((hperm.map periodSig).symm).nodup h1
  refine ⟨?_, ?_, hsignodup, ?_⟩
  · intro p hp
    exact hdates p (hperm.mem_iff.mp hp)
  · rw [hres]
    unfold _sort_periods_desc
    rw [List.pairwise_map]
    have hpair := sort_periods_pairwise
      (Bv.filterMap (fun p => (_extract_period_date p).map (fun d => (d, p))))
    have hmemd : ∀ x ∈ (Bv.filterMap
        (fun p => (_extract_period_date p).map (fun d => (d, p)))).insertionSort
          (fun a b => b.1 ≤ a.1),
        _extract_period_date x.2 = some x.1 := by
      intro x hx
      exact mem_withDates ((List.perm_insertionSort _ _).mem_iff.mp hx)
    have hsigs : List.Pairwise (fun x y : ℚ × JVal =>
        periodSig x.2 ≠ periodSig y.2)
        ((Bv.filterMap
          (fun p => (_extract_period_date p).map (fun d => (d, p)))).insertionSort
            (fun a b => b.1 ≤ a.1)) := by
      have h2 : ((all_periods_sorted core).map periodSig).Nodup := hsignodup
      rw [hres] at h2
      unfold _sort_periods_desc at h2
      rw [List.map_map] at h2
      rw [← List.pairwise_map (f := fun x : ℚ × JVal => periodSig x.2)]
      exact h2
    have hcomb := hpair.and hsigs
    refine hcomb.imp_of_mem ?_
    intro x y hxm hym hxy
    intro dp dq hdp hdq
    have hxd := hmemd x hxm
    have hyd := hmemd y hym
    rw [hxd] at hdp
    rw [hyd] at hdq
    injection hdp with hdp
    injection hdq with hdq
    subst hdp
    subst hdq
    rcases hxy with ⟨hle, hne⟩
    rcases lt_or_eq_of_le hle with h | h
    · exact h
    · exfalso
      apply hne
      unfold periodSig
      rw [hxd, hyd, h]
  · intro p hp s hps hq
    obtain ⟨e, he, rfl⟩ := List.mem_map.mp (hperm.mem_iff.mp hp)
    have hes : e.1 = s := by
      have := hBsig e he
      rw [hps] at this
      injection this with h
      exact h.symm
    obtain ⟨pq, hpq, hpqs⟩ := hq
    have hkeys := (bucket_keys_iff (quarters_sorted core) [] s).mpr
      (Or.inr ⟨pq, hpq, hpqs⟩)
    obtain ⟨e2, he2, he2s⟩ := hkeys
    have he2B : e2 ∈ B := by
      rw [hB, List.foldl_append]
      exact bucket_mem_preserved _ _ _ he2
    have hee : e = e2 :=
      nodup_keys_unique hBnodup e he e2 he2B (by rw [hes, he2s])
    have hsrc := bucket_entry_src (quarters_sorted core) [] e2 he2
    rcases hsrc with h | h
    · exact absurd h (by simp)
    · rw [hee]
      exact h

/-- Witness for C4 on the concrete core: its single merged period is
dated, and the merged timeline's signatures are distinct. -/
theorem C4_timeline_invariants_witness :
    (_extract_period_date c6p).isSome = true
    ∧ ((all_periods_sorted c6core).map periodSig).Nodup :=
  ⟨(C4_timeline_invariants c6core).1 c6p
      (by rw [c6_periods]; exact List.mem_cons_self c6p []),
   (C4_timeline_invariants c6core).2.2.1⟩

/-- The candidate list is sorted descending by its lexicographic key. -/
theorem collect_candidates_sorted (bs_a bs_q : List BSColumn) :
    List.Pairwise (fun a b => candKey b ≤ candKey a)
      (_collect_candidates bs_a bs_q) := by
  haveI : IsTotal Cand (fun a b => candKey b ≤ candKey a) :=
    ⟨fun a b => le_total (candKey b) (candKey a)⟩
  haveI : IsTrans Cand (fun a b => candKey b ≤ candKey a) :=
    ⟨fun _ _ _ hab hbc => le_trans hbc hab⟩
  exact List.sorted_insertionSort _ _

/-- In a descending-sorted list, the first hit of find? dominates every
later-keyed satisfier: nothing with a strictly larger key satisfies the
predicate. -/
theorem find?_sorted_maximal {l : List Cand} (p : Cand → Bool)
    (hsort : List.Pairwise (fun a b => candKey b ≤ candKey a) l)
    {c : Cand} (hfind : l.find? p = some c) :
    ∀ c2 ∈ l, candKey c < candKey c2 → p c2 = false := by
  induction l with
  | nil => exact absurd hfind (by simp)
  | cons a l ih =>
    rw [List.find?_cons] at hfind
    by_cases hpa : p a = true
    · rw [hpa] at hfind
      injection hfind with hfind
      subst hfind
      intro c2 hc2 hlt
      rcases List.mem_cons.mp hc2 with rfl | hc2
      · exact absurd hlt (lt_irrefl _)
      · exact absurd hlt (not_lt.mpr (List.rel_of_pairwise_cons hsort hc2))
    · have hpaf : p a = false := by simpa using hpa
      rw [hpaf] at hfind
      intro c2 hc2 hlt
      rcases List.mem_cons.mp hc2 with rfl | hc2
      · exact hpaf
      · exact ih hsort.of_cons hfind c2 hc2 hlt

/-- The walk predicate spelt out. -/
theorem candViable_iff (cutoff : ℤ) (c : Cand) :
    candViable cutoff c = true
    ↔ ∃ d, c.date = some d ∧ cutoff ≤ d
        ∧ c.vals.1.isSome = true ∧ c.vals.2.isSome = true := by
  cases hd : c.date with
  | none => simp [candViable, hd]
  | some d =>
    simp only [candViable, hd, Bool.and_eq_true, decide_eq_true_eq,
      Option.some.injEq]
    constructor
    · rintro ⟨⟨h1, h2⟩, h3⟩
      exact ⟨d, rfl, h1, h2, h3⟩
    · rintro ⟨d2, hd2, h1, h2, h3⟩
      subst hd2
      exact ⟨⟨h1, h2⟩, h3⟩

/-- C1: whenever the viable-snapshot selector returns a column, that
column is dated within 730 days of now, both derived balance values
resolve, the share count is positive, and no strictly newer candidate —
date descending with quarterly preferred on a tie — is both in-window
and fully resolvable; with an absent or non-positive share count, or no
viable candidate at all, the selector returns the absent triple. -/
theorem C1_viable_snapshot (bs_a bs_q : List BSColumn) (shares : Option ℚ)
    (now : ℤ) :
    (∀ (d : ℤ) (vals : Option ℚ × Option ℚ) (src : Option String),
      _select_latest_viable_ncavps bs_a bs_q shares now 730
        = (some d, vals, src) →
      now - 730 ≤ d
      ∧ vals.1.isSome = true ∧ vals.2.isSome = true
      ∧ (∃ s0, shares = some s0 ∧ 0 < s0)
      ∧ ∃ c ∈ _collect_candidates bs_a bs_q,
          c.date = some d ∧ c.vals = vals ∧ src = some c.source
          ∧ ∀ c2 ∈ _collect_candidates bs_a bs_q,
              candKey c < candKey c2 →
              ¬ ∃ d2, c2.date = some d2 ∧ now - 730 ≤ d2
                  ∧ c2.vals.1.isSome = true ∧ c2.vals.2.isSome = true)
    ∧ (shares = none →
        _select_latest_viable_ncavps bs_a bs_q shares now 730
          = (none, (none, none), none))
    ∧ (∀ s0, shares = some s0 → s0 ≤ 0 →
        _select_latest_viable_ncavps bs_a bs_q shares now 730
          = (none, (none, none), none))
    ∧ ((∀ c ∈ _collect_candidates bs_a bs_q,
          ¬ ∃ d2, c.date = some d2 ∧ now - 730 ≤ d2
              ∧ c.vals.1.isSome = true ∧ c.vals.2.isSome = true) →
        _select_latest_viable_ncavps bs_a bs_q shares now 730
          = (none, (none, none), none)) := by
  refine ⟨?_, ?_, ?_, ?_⟩
  · intro d vals src h
    unfold _select_latest_viable_ncavps at h
    cases hsh : shares with
    | none =>
      rw [hsh] at h
      simp at h
    | some s0 =>
      rw [hsh] at h
      have h2 : (if s0 ≤ 0 then
            ((none, (none, none), none) :
              Option ℤ × (Option ℚ × Option ℚ) × Option String)
          else
            match (_collect_candidates bs_a bs_q).find?
                (candViable (now - 730)) with
            | some c => (c.date, c.vals, some c.source)
            | none => (none, (none, none), none)) = (some d, vals, src) := h
      by_cases hs0 : s0 ≤ 0
      · rw [if_pos hs0] at h2
        simp at h2
      · rw [if_neg hs0] at h2
        cases hf : (_collect_candidates bs_a bs_q).find?
            (candViable (now - 730)) with
        | none =>
          rw [hf] at h2
          simp at h2
        | some c =>
          rw [hf] at h2
          obtain ⟨hd, hv, hsrc⟩ :
              c.date = some d ∧ c.vals = vals ∧ some c.source = src := by
            simpa [Prod.ext_iff] using h2
          have hcmem := List.mem_of_find?_eq_some hf
          have hcp := List.find?_some hf
          obtain ⟨d1, hd1, hcut, hv1, hv2⟩ := (candViable_iff _ _).mp hcp
          rw [hd] at hd1
          injection hd1 with hd1
          subst hd1
          refine ⟨hcut, hv ▸ hv1, hv ▸ hv2, ⟨s0, rfl, not_le.mp hs0⟩,
            c, hcmem, hd, hv, hsrc.symm, ?_⟩
          intro c2 hc2 hlt hviable
          have hfalse := find?_sorted_maximal (candViable (now - 730))
            (collect_candidates_sorted bs_a bs_q) hf c2 hc2 hlt
          rw [(candViable_iff (now - 730) c2).mpr hviable] at hfalse
          exact Bool.noConfusion hfalse
  · intro h
    subst h
    rfl
  · intro s0 h hle
    subst h
    show (if s0 ≤ 0 then
          ((none, (none, none), none) :
            Option ℤ × (Option ℚ × Option ℚ) × Option String)
        else
          match (_collect_candidates bs_a bs_q).find?
              (candViable (now - 730)) with
          | some c => (c.date, c.vals, some c.source)
          | none => (none, (none, none), none)) = (none, (none, none), none)
    rw [if_pos hle]
  · intro hall
    cases hsh : shares with
    | none => rfl
    | some s0 =>
      have hfind : (_collect_candidates bs_a bs_q).find?
          (candViable (now - 730)) = none := by
        rw [List.find?_eq_none]
        intro c hc hp
        exact hall c hc ((candViable_iff _ _).mp hp)
      by_cases hs0 : s0 ≤ 0
      · show (if s0 ≤ 0 then
            ((none, (none, none), none) :
              Option ℤ × (Option ℚ × Option ℚ) × Option String)
          else
            match (_collect_candidates bs_a bs_q).find?
                (candViable (now - 730)) with
            | some c => (c.date, c.vals, some c.source)
            | none => (none, (none, none), none)) = (none, (none, none), none)
        rw [if_pos hs0]
      · show (if s0 ≤ 0 then
            ((none, (none, none), none) :
              Option ℤ × (Option ℚ × Option ℚ) × Option String)
          else
            match (_collect_candidates bs_a bs_q).find?
                (candViable (now - 730)) with
            | some c => (c.date, c.vals, some c.source)
            | none => (none, (none, none), none)) = (none, (none, none), none)
        rw [if_neg hs0, hfind]

/-- A concrete viable quarterly balance-sheet column: dated today, with
current assets 100 and total liabilities 40. -/
def c1col : BSColumn :=
  ⟨some 0, some 100, none, none, some 40, none, none, none⟩

/-- Witness for C1: with 10 shares out and only the one in-window column,
the selector picks it and every guarantee of the theorem holds there. -/
theorem C1_viable_snapshot_witness :
    (0:ℤ) - 730 ≤ 0
    ∧ ((some (100:ℚ), some (40:ℚ))).1.isSome = true
    ∧ ((some (100:ℚ), some (40:ℚ))).2.isSome = true
    ∧ (∃ s0, (some (10:ℚ)) = some s0 ∧ 0 < s0)
    ∧ ∃ c ∈ _collect_candidates [] [c1col], c.date = some 0
        ∧ c.vals = (some 100, some 40) ∧ some "quarterly" = some c.source
        ∧ ∀ c2 ∈ _collect_candidates [] [c1col],
            candKey c < candKey c2 →
            ¬ ∃ d2, c2.date = some d2 ∧ 0 - 730 ≤ d2
                ∧ c2.vals.1.isSome = true ∧ c2.vals.2.isSome = true :=
  (C1_viable_snapshot [] [c1col] (some 10) 0).1 0 (some 100, some 40)
    (some "quarterly") (by decide)
